import Mathlib

/-!
# QVibe-Site: the scroll-driven panel sequencer of `script.js`

A shallow embedding of the second `DOMContentLoaded` handler of `script.js`
(the `STATES` table, `onStateChange`, `throttle`, `handleWheel`,
`animateTextLetters` and the enhanced `onStateChange`), followed by the
properties of the sequencer proved about it.

Modelling conventions.

* The closure variables and the DOM nodes the handler touches are the fields of
  one record, `World`; every JavaScript function becomes a function
  `World → World`.
* `setTimeout` appends a pending timer to `World.timers`; the environment
  (`step`) may fire a pending timer once the clock has reached its due time, so
  a timer never fires earlier than its delay after it was scheduled.
* `deltaY` is a finite double that the code only compares with `0` and `10`;
  it is embedded as a rational number.
* The text of the paragraph is a JavaScript string, embedded as the list of its
  UTF-16 code units (`CodeUnit`); `utf16` gives the code units of a text written
  with Unicode characters. The class of `body` is embedded as a list of
  characters: the code only looks for ASCII characters in it, and no code unit
  of a surrogate pair is one.
* `World.dispatched` records the `detail` of every `stateChange` event
  dispatched on `window`, oldest first, and `World.scheduled` records every
  `setTimeout` call, oldest first. Both are observation histories: no function
  of the embedding reads them.
* `console.log` and `event.preventDefault()` touch nothing that is modelled and
  are left out; `wheelTimeout` is declared by the source but never used.
-/

namespace QVibe

/-! ## Data model -/

/-- The keys of the object `STATES`. -/
inductive State
  | HERO
  | PREVIEW
  | TEAM_CARD
  | PROJECTS_PREVIEW
  | PROJECTS
  | TEAM
  | FINAL
  deriving DecidableEq, Repr

/-- The string value `STATES` gives to each key. -/
def State.value : State → String
  | .HERO => "hero"
  | .PREVIEW => "preview"
  | .TEAM_CARD => "team-card"
  | .PROJECTS_PREVIEW => "projects-preview"
  | .PROJECTS => "projects"
  | .TEAM => "team"
  | .FINAL => "final"

/-- The `detail` of a dispatched `stateChange` event; `previous` is `none` for
the `null` of the call made at page load. -/
structure StateChangeDetail where
  current : State
  previous : Option State
  timestamp : Nat
  deriving DecidableEq, Repr

/-- The three arrow functions the handler passes to `setTimeout`:
`() => { isTransitioning = false; }`, `() => inThrottle = false` and
`() => { animateTextLetters(); }`. -/
inductive Callback
  | resetTransition
  | resetThrottle
  | animate
  deriving DecidableEq, Repr

/-- A pending timer: the clock value from which it may fire and its callback. -/
structure Timer where
  due : Nat
  callback : Callback
  deriving DecidableEq, Repr

/-- A UTF-16 code unit, the element of a JavaScript string: what `text.length`
counts and `word[i]` reads (a number below 65536). -/
abbrev CodeUnit := Nat

/-- A letter span made by `animateTextLetters`: its text, the one code unit
`word[i]`, and its `--letter-index`. -/
structure LetterSpan where
  text : CodeUnit
  letterIndex : Nat
  deriving DecidableEq, Repr

/-- A child of the paragraph `#final-text-box .hero-text p`: the text the page
was served with, a word container holding letter spans, or a span holding one
space. -/
inductive HeroChild
  | text (content : List CodeUnit)
  | wordSpan (letters : List LetterSpan)
  | spaceSpan
  deriving DecidableEq, Repr

/-- The closure variables of the handler, the DOM state it reads and writes, the
clock, the pending timers and the two observation histories. -/
structure World where
  now : Nat
  isBoxVisible : Bool
  currentState : State
  isTransitioning : Bool
  inThrottle : Bool
  frostedBox : List String
  projectsBox : List String
  projectsDisplay : String
  teamBox : List String
  teamDisplay : String
  bodyClass : List Char
  heroText : Option (List HeroChild)
  timers : List Timer
  dispatched : List StateChangeDetail
  scheduled : List Timer
  deriving DecidableEq, Repr

/-- The part of the served page the handler finds at `DOMContentLoaded`; the
HTML is not part of the sources, so it is a parameter of `pageLoad`. The class
attributes of the three boxes are given as token lists, the class attribute of
`body` as its string, `heroText` is `none` when the paragraph is missing. -/
structure Document where
  frostedBox : List String
  projectsBox : List String
  projectsDisplay : String
  teamBox : List String
  teamDisplay : String
  bodyClass : List Char
  heroText : Option (List HeroChild)
  deriving DecidableEq, Repr

/-! ## DOM helpers -/

/-- `element.classList.add(tok)` on a token list. -/
def classListAdd (tok : String) (cl : List String) : List String :=
  if tok ∈ cl then cl else cl ++ [tok]

/-- `element.classList.remove(tok)` on a token list. -/
def classListRemove (tok : String) (cl : List String) : List String :=
  cl.filter (fun t => t ≠ tok)

/-- The class `\w` of a regular expression without the `u` and `i` flags. -/
def isWordChar (c : Char) : Bool :=
  c.isAlphanum || c = '_'

/-- Length of the longest run of `\w` characters at the start of a string. -/
def wordRun : List Char → Nat
  | [] => 0
  | c :: cs => if isWordChar c then wordRun cs + 1 else 0

/-- Length of the match of `state-\w+` anchored at the start of the string,
`0` when there is none (a match has at least seven characters). -/
def matchStateMarker (s : List Char) : Nat :=
  if "state-".toList.isPrefixOf s then
    (if wordRun (s.drop 6) = 0 then 0 else 6 + wordRun (s.drop 6))
  else 0

/-- The scan of `replace(/state-\w+/g, '')`: `skip` counts the characters of
the current match still to be dropped. -/
def replaceStateMarkersFrom : Nat → List Char → List Char
  | _, [] => []
  | k + 1, _ :: cs => replaceStateMarkersFrom k cs
  | 0, c :: cs =>
    match matchStateMarker (c :: cs) with
    | 0 => c :: replaceStateMarkersFrom 0 cs
    | n + 1 => replaceStateMarkersFrom n cs

/-- `className.replace(/state-\w+/g, '')`. -/
def replaceStateMarkers (s : List Char) : List Char :=
  replaceStateMarkersFrom 0 s

/-- ASCII whitespace, the separators of a class attribute. -/
def isAsciiWhitespace (c : Char) : Bool :=
  c = ' ' || c = '\t' || c = '\n' || c = '\x0c' || c = '\r'

/-- Split a string at every ASCII whitespace character (empty pieces kept). -/
def splitOnWhitespace : List Char → List (List Char)
  | [] => [[]]
  | c :: cs =>
    if isAsciiWhitespace c then [] :: splitOnWhitespace cs
    else
      match splitOnWhitespace cs with
      | [] => [[c]]
      | t :: ts => (c :: t) :: ts

/-- Keep the first occurrence of every token. -/
def orderedSet (toks : List (List Char)) : List (List Char) :=
  toks.foldl (fun acc t => if t ∈ acc then acc else acc ++ [t]) []

/-- The token set of a class attribute. -/
def parseTokens (className : List Char) : List (List Char) :=
  orderedSet ((splitOnWhitespace className).filter (fun t => t ≠ []))

/-- The serialisation of a token set: the tokens joined by one space. -/
def serializeTokens : List (List Char) → List Char
  | [] => []
  | [t] => t
  | t :: ts => t ++ ' ' :: serializeTokens ts

/-- `document.body.classList.add(tok)`, on the class attribute string. -/
def bodyClassListAdd (tok : List Char) (className : List Char) : List Char :=
  serializeTokens
    (if tok ∈ parseTokens className then parseTokens className
     else parseTokens className ++ [tok])

/-- `document.body.classList.remove(tok)`, on the class attribute string. -/
def bodyClassListRemove (tok : List Char) (className : List Char) : List Char :=
  serializeTokens ((parseTokens className).filter (fun t => t ≠ tok))

/-- `setTimeout(callback, delay)`. -/
def setTimeout (callback : Callback) (delay : Nat) (w : World) : World :=
  { w with
    timers := w.timers ++ [⟨w.now + delay, callback⟩]
    scheduled := w.scheduled ++ [⟨w.now + delay, callback⟩] }

/-! ## `animateTextLetters` -/

/-- The code unit of `' '`. -/
def spaceUnit : CodeUnit := 32

/-- The UTF-16 code units of a character: its code for a character of the Basic
Multilingual Plane, a surrogate pair for any other. -/
def utf16OfChar (c : Char) : List CodeUnit :=
  if c.toNat < 65536 then [c.toNat]
  else [55296 + (c.toNat - 65536) / 1024, 56320 + (c.toNat - 65536) % 1024]

/-- The code units of a text. -/
def utf16 (s : List Char) : List CodeUnit :=
  (s.map utf16OfChar).flatten

/-- `node.textContent` of a child of the paragraph. -/
def HeroChild.textContent : HeroChild → List CodeUnit
  | .text s => s
  | .wordSpan letters => letters.map LetterSpan.text
  | .spaceSpan => [spaceUnit]

/-- `heroText.textContent`. -/
def textContent (children : List HeroChild) : List CodeUnit :=
  (children.map HeroChild.textContent).flatten

/-- `text.split(' ')`. -/
def splitOnSpace : List CodeUnit → List (List CodeUnit)
  | [] => [[]]
  | c :: cs =>
    if c = spaceUnit then [] :: splitOnSpace cs
    else
      match splitOnSpace cs with
      | [] => [[c]]
      | w :: ws => (c :: w) :: ws

/-- The `for` loop over one word, `i` running over its code units, started with
the given `letterIndex`. -/
def letterSpans : List CodeUnit → Nat → List LetterSpan
  | [], _ => []
  | c :: cs, letterIndex => ⟨c, letterIndex⟩ :: letterSpans cs (letterIndex + 1)

/-- The body of `words.forEach`, with `letterIndex` threaded through. -/
def animateWords : List (List CodeUnit) → Nat → List HeroChild
  | [], _ => []
  | [word], letterIndex => [.wordSpan (letterSpans word letterIndex)]
  | word :: next :: rest, letterIndex =>
    .wordSpan (letterSpans word letterIndex) :: .spaceSpan ::
      animateWords (next :: rest) (letterIndex + word.length)

/-- `animateTextLetters()`. -/
def animateTextLetters (w : World) : World :=
  match w.heroText with
  | none => w
  | some children =>
    { w with heroText := some (animateWords (splitOnSpace (textContent children)) 0) }

/-! ## `onStateChange`, `throttle`, `handleWheel` -/

/-- The function declaration `onStateChange`, which the source later keeps as
`originalOnStateChange`. -/
def originalOnStateChange (newState : State) (previousState : Option State)
    (w : World) : World :=
  let w1 := { w with bodyClass := replaceStateMarkers w.bodyClass }
  let w2 := { w1 with
    bodyClass := bodyClassListAdd ("state-".toList ++ newState.value.toList) w1.bodyClass }
  { w2 with dispatched := w2.dispatched ++ [⟨newState, previousState, w2.now⟩] }

/-- The function assigned to `onStateChange` before any call is made: the one
every call site of the handler reaches. -/
def onStateChange (newState : State) (previousState : Option State)
    (w : World) : World :=
  let w1 := originalOnStateChange newState previousState w
  if newState = State.FINAL then setTimeout .animate 100 w1 else w1

/-- `throttle(func, limit)`, applied to the argument of one call; `inThrottle`
is the variable of the single closure the page creates. -/
def throttle {α : Type} (func : α → World → World) (limit : Nat) (args : α)
    (w : World) : World :=
  if !w.inThrottle then
    let w1 := func args w
    let w2 := { w1 with inThrottle := true }
    setTimeout .resetThrottle limit w2
  else w

/-- `handleWheel(event)`, on `event.deltaY`. -/
def handleWheel (deltaY : ℚ) (w : World) : World :=
  if w.isTransitioning then w
  else if 10 < |deltaY| then
    let previousState := w.currentState
    let w0 := { w with isTransitioning := true }
    let w1 :=
      if 0 < deltaY ∧ w0.currentState = State.PREVIEW then
        onStateChange State.TEAM_CARD (some previousState)
          { w0 with
            frostedBox := classListAdd "show" (classListRemove "preview" w0.frostedBox)
            projectsDisplay := "flex"
            projectsBox := classListAdd "projects-preview" w0.projectsBox
            bodyClass := bodyClassListAdd "card-shown".toList w0.bodyClass
            isBoxVisible := true
            currentState := State.TEAM_CARD }
      else if 0 < deltaY ∧ w0.currentState = State.TEAM_CARD then
        onStateChange State.PROJECTS (some previousState)
          { w0 with
            frostedBox := classListAdd "slide-up" w0.frostedBox
            projectsBox :=
              classListAdd "projects" (classListRemove "projects-preview" w0.projectsBox)
            teamDisplay := "flex"
            teamBox := classListAdd "team-preview" w0.teamBox
            currentState := State.PROJECTS }
      else if deltaY < 0 ∧ w0.currentState = State.TEAM_CARD then
        onStateChange State.PREVIEW (some previousState)
          { w0 with
            frostedBox := classListAdd "preview" (classListRemove "show" w0.frostedBox)
            projectsDisplay := "none"
            projectsBox := classListRemove "projects-preview" w0.projectsBox
            bodyClass := bodyClassListRemove "card-shown".toList w0.bodyClass
            isBoxVisible := false
            currentState := State.PREVIEW }
      else if 0 < deltaY ∧ w0.currentState = State.PROJECTS then
        onStateChange State.TEAM (some previousState)
          { w0 with
            projectsBox := classListAdd "slide-up" w0.projectsBox
            teamBox := classListAdd "team" (classListRemove "team-preview" w0.teamBox)
            currentState := State.TEAM }
      else if 0 < deltaY ∧ w0.currentState = State.TEAM then
        onStateChange State.FINAL (some previousState)
          { w0 with
            teamBox := classListAdd "slide-up" (classListRemove "team" w0.teamBox)
            currentState := State.FINAL }
      else if deltaY < 0 ∧ w0.currentState = State.FINAL then
        onStateChange State.TEAM (some previousState)
          { w0 with
            teamBox := classListAdd "team" (classListRemove "slide-up" w0.teamBox)
            currentState := State.TEAM }
      else if deltaY < 0 ∧ w0.currentState = State.TEAM then
        onStateChange State.PROJECTS (some previousState)
          { w0 with
            teamBox := classListAdd "team-preview" (classListRemove "team" w0.teamBox)
            projectsBox := classListAdd "projects" (classListRemove "slide-up" w0.projectsBox)
            currentState := State.PROJECTS }
      else if deltaY < 0 ∧ w0.currentState = State.PROJECTS then
        onStateChange State.TEAM_CARD (some previousState)
          { w0 with
            projectsBox :=
              classListAdd "projects-preview" (classListRemove "projects" w0.projectsBox)
            teamDisplay := "none"
            teamBox := classListRemove "team-preview" w0.teamBox
            frostedBox := classListAdd "show" (classListRemove "slide-up" w0.frostedBox)
            bodyClass := bodyClassListAdd "card-shown".toList w0.bodyClass
            isBoxVisible := true
            currentState := State.TEAM_CARD }
      else w0
    setTimeout .resetTransition 600 w1
  else w

/-- The listener registered on `wheel`: `throttle(handleWheel, 100)`. -/
def wheelListener (deltaY : ℚ) (w : World) : World :=
  throttle handleWheel 100 deltaY w

/-! ## Page load and the event loop -/

/-- The `DOMContentLoaded` handler, run at clock value `t0` on the served
page. -/
def pageLoad (doc : Document) (t0 : Nat) : World :=
  onStateChange State.PREVIEW none
    { now := t0
      isBoxVisible := false
      currentState := State.PREVIEW
      isTransitioning := false
      inThrottle := false
      frostedBox := classListAdd "preview" doc.frostedBox
      projectsBox := doc.projectsBox
      projectsDisplay := "none"
      teamBox := doc.teamBox
      teamDisplay := "none"
      bodyClass := doc.bodyClass
      heroText := doc.heroText
      timers := []
      dispatched := []
      scheduled := [] }

/-- What a timer does when it fires. -/
def runCallback : Callback → World → World
  | .resetTransition, w => { w with isTransitioning := false }
  | .resetThrottle, w => { w with inThrottle := false }
  | .animate, w => animateTextLetters w

/-- What the environment can do: deliver a wheel event, let time pass, or fire
the pending timer at a position of the timer list. -/
inductive Input
  | wheel (deltaY : ℚ)
  | elapse (ms : Nat)
  | fire (i : Nat)

/-- One turn of the event loop. A timer fires only when the clock has reached
its due time; firing a timer that is not pending or not yet due does nothing. -/
def step (w : World) : Input → World
  | .wheel deltaY => wheelListener deltaY w
  | .elapse ms => { w with now := w.now + ms }
  | .fire i =>
    match w.timers.get? i with
    | some t =>
      if t.due ≤ w.now then runCallback t.callback { w with timers := w.timers.eraseIdx i }
      else w
    | none => w

/-- The world after a sequence of turns. -/
def run (w : World) (inputs : List Input) : World :=
  inputs.foldl step w

/-- The time that passes during a sequence of turns. -/
def elapsed : List Input → Nat
  | [] => 0
  | .elapse ms :: rest => ms + elapsed rest
  | _ :: rest => elapsed rest

/-- A page served with no class on any of the nodes and a short paragraph. -/
def blankDocument : Document :=
  { frostedBox := []
    projectsBox := []
    projectsDisplay := ""
    teamBox := []
    teamDisplay := ""
    bodyClass := []
    heroText := some [.text (utf16 "Hi all".toList)] }

/-! ## Observations on runs -/

/-- Number of pending timers with the given callback. -/
def pendingCount (cb : Callback) (w : World) : Nat :=
  w.timers.countP (fun t => decide (t.callback = cb))

/-- Number of `setTimeout` calls made so far with the given callback. -/
def scheduledCount (cb : Callback) (w : World) : Nat :=
  w.scheduled.countP (fun t => decide (t.callback = cb))

/-- The changes of `currentState` seen along a sequence of turns, each written
as the notification the specification asks for: new state, state before, and
the clock at that turn. -/
def transitionsOf (w : World) : List Input → List StateChangeDetail
  | [] => []
  | i :: rest =>
    (if (step w i).currentState ≠ w.currentState then
      [⟨(step w i).currentState, some w.currentState, w.now⟩]
     else []) ++ transitionsOf (step w i) rest

/-- Number of turns of a sequence at which `currentState` changes to FINAL. -/
def entriesIntoFinal (w : World) : List Input → Nat
  | [] => 0
  | i :: rest =>
    (if (step w i).currentState = State.FINAL ∧ w.currentState ≠ State.FINAL then 1 else 0) +
      entriesIntoFinal (step w i) rest

/-- The guard is active before every turn of the sequence. -/
def guardActiveBefore (w : World) : List Input → Prop
  | [] => True
  | i :: rest => w.isTransitioning = true ∧ guardActiveBefore (step w i) rest

/-- Events handed to `handleWheel` one after the other, each after the cooldown
of the one before has ended (`resetTransition` has run): the state after each
event. -/
def statesVisited (w : World) : List ℚ → List State
  | [] => []
  | d :: ds =>
    (handleWheel d w).currentState ::
      statesVisited (runCallback Callback.resetTransition (handleWheel d w)) ds

/-! ## The transition table of the specification -/

/-- The two scroll directions of the specification. -/
inductive Direction
  | down
  | up
  deriving DecidableEq, Repr

/-- The transition table as the specification writes it (section 4.1): the
rows PREVIEW, TEAM_CARD, PROJECTS, TEAM, FINAL, with the columns Down and Up;
a dash, and every state without a row, is `none`. -/
def specTable : State → Direction → Option State
  | .PREVIEW, .down => some .TEAM_CARD
  | .PREVIEW, .up => none
  | .TEAM_CARD, .down => some .PROJECTS
  | .TEAM_CARD, .up => some .PREVIEW
  | .PROJECTS, .down => some .TEAM
  | .PROJECTS, .up => some .TEAM_CARD
  | .TEAM, .down => some .FINAL
  | .TEAM, .up => some .PROJECTS
  | .FINAL, .down => none
  | .FINAL, .up => some .TEAM
  | .HERO, _ => none
  | .PROJECTS_PREVIEW, _ => none

/-- The table read at a signed delta, as the specification words it: down is a
positive delta, up a negative delta. -/
def specNext (s : State) (deltaY : ℚ) : Option State :=
  if 0 < deltaY then specTable s .down
  else if deltaY < 0 then specTable s .up
  else none

/-- The timers one accepted over-threshold event schedules when the table gives
`target`: the text reveal on entry to FINAL, then the cooldown. -/
def timersOfEvent (now : Nat) (target : Option State) : List Timer :=
  (if target = some State.FINAL then [⟨now + 100, Callback.animate⟩] else []) ++
    [⟨now + 600, Callback.resetTransition⟩]

/-- The notification one accepted over-threshold event dispatches when the
table gives `target`. -/
def detailsOfEvent (now : Nat) (previous : State) : Option State → List StateChangeDetail
  | some s => [⟨s, some previous, now⟩]
  | none => []

/-- The cooldown invariant: one cooldown timer is pending while the guard is
active, none while it is inactive. -/
def CooldownInv (w : World) : Prop :=
  pendingCount Callback.resetTransition w = if w.isTransitioning = true then 1 else 0

/-- The guard is active and no pending cooldown timer is due before `D`. -/
def CooldownWindow (D : Nat) (w : World) : Prop :=
  w.isTransitioning = true ∧
    ∀ t ∈ w.timers, t.callback = Callback.resetTransition → D ≤ t.due

/-- A world the page can be in: the result of the load followed by any sequence
of turns of the event loop. -/
def Reachable (w : World) : Prop :=
  ∃ (doc : Document) (t0 : Nat) (inputs : List Input), w = run (pageLoad doc t0) inputs

/-! ## Observations on the throttled listener -/

/-- One turn of the event loop of a page whose wheel listener is `listener`;
`step` is the case of the listener the page registers. -/
def stepWith (listener : ℚ → World → World) (w : World) : Input → World
  | .wheel deltaY => listener deltaY w
  | .elapse ms => { w with now := w.now + ms }
  | .fire i =>
    match w.timers.get? i with
    | some t =>
      if t.due ≤ w.now then runCallback t.callback { w with timers := w.timers.eraseIdx i }
      else w
    | none => w

/-- The world after a sequence of turns, with the given listener. -/
def runWith (listener : ℚ → World → World) (w : World) (inputs : List Input) : World :=
  inputs.foldl (stepWith listener) w

/-- The clock values at which `throttle(func, limit)` forwards a call to `func`
along a sequence of turns: the calls it receives while `inThrottle` is unset. -/
def forwardedAt (func : ℚ → World → World) (limit : Nat) (w : World) :
    List Input → List Nat
  | [] => []
  | .wheel deltaY :: rest =>
    (if w.inThrottle = false then [w.now] else []) ++
      forwardedAt func limit (stepWith (throttle func limit) w (.wheel deltaY)) rest
  | .elapse ms :: rest =>
    forwardedAt func limit (stepWith (throttle func limit) w (.elapse ms)) rest
  | .fire i :: rest =>
    forwardedAt func limit (stepWith (throttle func limit) w (.fire i)) rest

/-- What a function handed to `throttle` cannot touch: the variable `inThrottle`
of the closure, the clock, and the pending re-enable timers. -/
def ThrottleFrame (func : ℚ → World → World) : Prop :=
  ∀ (args : ℚ) (w : World),
    (func args w).inThrottle = w.inThrottle ∧ (func args w).now = w.now ∧
      (func args w).timers.filter (fun t => decide (t.callback = Callback.resetThrottle)) =
        w.timers.filter (fun t => decide (t.callback = Callback.resetThrottle))

/-- The throttle invariant, with a lower bound `lo` on the time of the next
forwarded call: at most one re-enable timer is pending, none while `inThrottle`
is unset, and no pending one is due before `lo`. -/
def ThrottleInv (lo : Nat) (w : World) : Prop :=
  pendingCount Callback.resetThrottle w ≤ 1 ∧
    (w.inThrottle = false → pendingCount Callback.resetThrottle w = 0 ∧ lo ≤ w.now) ∧
    ∀ t ∈ w.timers, t.callback = Callback.resetThrottle → lo ≤ t.due

/-- The turn is not a wheel event. -/
def Input.isTimerTurn : Input → Bool
  | .wheel _ => false
  | _ => true

/-! ## Observations on states and on the paragraph -/

/-- The five states of the sequence, in its order. -/
def sequenceStates : List State :=
  [State.PREVIEW, State.TEAM_CARD, State.PROJECTS, State.TEAM, State.FINAL]

/-- The state is one of the five states of the sequence, and so is every state
named by a dispatched notification. -/
def SequenceInv (w : World) : Prop :=
  w.currentState ∈ sequenceStates ∧
    ∀ n ∈ w.dispatched, n.current ∈ sequenceStates ∧
      ∀ p, n.previous = some p → p ∈ sequenceStates

/-- The letter spans under the paragraph, in document order. -/
def lettersOf : List HeroChild → List LetterSpan
  | [] => []
  | .wordSpan letters :: rest => letters ++ lettersOf rest
  | _ :: rest => lettersOf rest

/-- The text of each word container under the paragraph, in document order. -/
def wordTexts : List HeroChild → List (List CodeUnit)
  | [] => []
  | .wordSpan letters :: rest => letters.map LetterSpan.text :: wordTexts rest
  | _ :: rest => wordTexts rest

/-- Number of space spans under the paragraph. -/
def spaceSpanCount : List HeroChild → Nat
  | [] => 0
  | .spaceSpan :: rest => spaceSpanCount rest + 1
  | _ :: rest => spaceSpanCount rest

/-! ## The presentation markers -/

/-- The marker classes the handler puts on and takes off the three boxes. -/
def markerClasses : List String :=
  ["preview", "show", "slide-up", "projects-preview", "projects", "team-preview", "team"]

/-- The presentation markers: the marker classes of the three boxes, the
`display` value of `projectsBox` and `teamBox`, whether `body` carries the class
`card-shown`, and `isBoxVisible`. -/
structure Markers where
  frostedBox : List String
  projectsBox : List String
  projectsDisplay : String
  teamBox : List String
  teamDisplay : String
  cardShown : Bool
  isBoxVisible : Bool
  deriving DecidableEq, Repr

/-- The presentation markers of a world. -/
def markersOf (w : World) : Markers :=
  { frostedBox := w.frostedBox.filter (fun c => decide (c ∈ markerClasses))
    projectsBox := w.projectsBox.filter (fun c => decide (c ∈ markerClasses))
    projectsDisplay := w.projectsDisplay
    teamBox := w.teamBox.filter (fun c => decide (c ∈ markerClasses))
    teamDisplay := w.teamDisplay
    cardShown := decide ("card-shown".toList ∈ parseTokens w.bodyClass)
    isBoxVisible := w.isBoxVisible }

/-- The marker assignment of each state of the sequence (the two states that are
never reached are given the assignment of PREVIEW). -/
def markersAt : State → Markers
  | .TEAM_CARD =>
    { frostedBox := ["show"], projectsBox := ["projects-preview"], projectsDisplay := "flex",
      teamBox := [], teamDisplay := "none", cardShown := true, isBoxVisible := true }
  | .PROJECTS =>
    { frostedBox := ["show", "slide-up"], projectsBox := ["projects"],
      projectsDisplay := "flex", teamBox := ["team-preview"], teamDisplay := "flex",
      cardShown := true, isBoxVisible := true }
  | .TEAM =>
    { frostedBox := ["show", "slide-up"], projectsBox := ["projects", "slide-up"],
      projectsDisplay := "flex", teamBox := ["team"], teamDisplay := "flex",
      cardShown := true, isBoxVisible := true }
  | .FINAL =>
    { frostedBox := ["show", "slide-up"], projectsBox := ["projects", "slide-up"],
      projectsDisplay := "flex", teamBox := ["slide-up"], teamDisplay := "flex",
      cardShown := true, isBoxVisible := true }
  | _ =>
    { frostedBox := ["preview"], projectsBox := [], projectsDisplay := "none",
      teamBox := [], teamDisplay := "none", cardShown := false, isBoxVisible := false }

/-- The class token `state-${s}`. -/
def stateToken (s : State) : List Char :=
  "state-".toList ++ s.value.toList

/-- A class token of `body` that the handler can meet: one that the removal of
state markers leaves as it is, or the state marker of a state. -/
def TokenOk (t : List Char) : Prop :=
  replaceStateMarkers t = t ∨ ∃ s : State, t = stateToken s

/-- Every class token of `body` is one the handler can meet. -/
def BodyOk (className : List Char) : Prop :=
  ∀ t ∈ parseTokens className, TokenOk t

/-- A served page that carries none of the markers: no marker class on the three
boxes, and a class on `body` in which one removal of the state markers leaves
no state marker and no `card-shown`. -/
def CleanDocument (doc : Document) : Prop :=
  doc.frostedBox.filter (fun c => decide (c ∈ markerClasses)) = [] ∧
  doc.projectsBox.filter (fun c => decide (c ∈ markerClasses)) = [] ∧
  doc.teamBox.filter (fun c => decide (c ∈ markerClasses)) = [] ∧
  replaceStateMarkers (replaceStateMarkers doc.bodyClass) = replaceStateMarkers doc.bodyClass ∧
  "card-shown".toList ∉ parseTokens (replaceStateMarkers doc.bodyClass)

/-- The marker invariant: the markers are those of the current state, the
current state is one of the sequence, and the tokens of `body` are ones the
handler can meet. -/
def MarkerInv (w : World) : Prop :=
  markersOf w = markersAt w.currentState ∧ w.currentState ∈ sequenceStates ∧
    BodyOk w.bodyClass

/-- No character of the string is ASCII whitespace. -/
def WsFree (t : List Char) : Prop :=
  ∀ c ∈ t, isAsciiWhitespace c = false

/-! ## Field lemmas -/

section fields

variable (newState : State) (previousState : Option State) (cb : Callback) (n : Nat)
  (w : World)

@[simp]
theorem setTimeout_currentState : (setTimeout cb n w).currentState = w.currentState := rfl
@[simp]
theorem setTimeout_isTransitioning :
    (setTimeout cb n w).isTransitioning = w.isTransitioning := rfl
@[simp]
theorem setTimeout_inThrottle : (setTimeout cb n w).inThrottle = w.inThrottle := rfl
@[simp]
theorem setTimeout_now : (setTimeout cb n w).now = w.now := rfl
@[simp]
theorem setTimeout_dispatched : (setTimeout cb n w).dispatched = w.dispatched := rfl
@[simp]
theorem setTimeout_timers :
    (setTimeout cb n w).timers = w.timers ++ [⟨w.now + n, cb⟩] := rfl
@[simp]
theorem setTimeout_scheduled :
    (setTimeout cb n w).scheduled = w.scheduled ++ [⟨w.now + n, cb⟩] := rfl

@[simp]
theorem onStateChange_currentState :
    (onStateChange newState previousState w).currentState = w.currentState := by
  unfold onStateChange; split <;> rfl
@[simp]
theorem onStateChange_isTransitioning :
    (onStateChange newState previousState w).isTransitioning = w.isTransitioning := by
  unfold onStateChange; split <;> rfl
@[simp]
theorem onStateChange_inThrottle :
    (onStateChange newState previousState w).inThrottle = w.inThrottle := by
  unfold onStateChange; split <;> rfl
@[simp]
theorem onStateChange_now :
    (onStateChange newState previousState w).now = w.now := by
  unfold onStateChange; split <;> rfl
@[simp]
theorem onStateChange_dispatched :
    (onStateChange newState previousState w).dispatched =
      w.dispatched ++ [⟨newState, previousState, w.now⟩] := by
  unfold onStateChange; split <;> rfl
@[simp]
theorem onStateChange_timers :
    (onStateChange newState previousState w).timers =
      w.timers ++ (if newState = State.FINAL then [⟨w.now + 100, Callback.animate⟩] else []) := by
  unfold onStateChange; split <;> simp [originalOnStateChange]
@[simp]
theorem onStateChange_scheduled :
    (onStateChange newState previousState w).scheduled =
      w.scheduled ++
        (if newState = State.FINAL then [⟨w.now + 100, Callback.animate⟩] else []) := by
  unfold onStateChange; split <;> simp [originalOnStateChange]

end fields

/-- An event handled while the guard is active returns the world untouched. -/
theorem handleWheel_of_guard (d : ℚ) (w : World) (hg : w.isTransitioning = true) :
    handleWheel d w = w := by
  unfold handleWheel
  rw [if_pos hg]

/-- An event inside the dead zone returns the world untouched. -/
theorem handleWheel_of_small (d : ℚ) (w : World) (hd : |d| ≤ 10) :
    handleWheel d w = w := by
  unfold handleWheel
  by_cases hg : w.isTransitioning = true
  · rw [if_pos hg]
  · rw [if_neg hg, if_neg (not_lt.mpr hd)]

/-- The control fields after an over-threshold event handled with the guard
inactive, in terms of the table entry for the state and the delta. -/
theorem handleWheel_accepted (d : ℚ) (w : World) (hg : w.isTransitioning = false)
    (hd : 10 < |d|) :
    (handleWheel d w).currentState = (specNext w.currentState d).getD w.currentState ∧
    (handleWheel d w).dispatched =
      w.dispatched ++ detailsOfEvent w.now w.currentState (specNext w.currentState d) ∧
    (handleWheel d w).timers =
      w.timers ++ timersOfEvent w.now (specNext w.currentState d) ∧
    (handleWheel d w).scheduled =
      w.scheduled ++ timersOfEvent w.now (specNext w.currentState d) ∧
    (handleWheel d w).isTransitioning = true ∧
    (handleWheel d w).now = w.now ∧
    (handleWheel d w).inThrottle = w.inThrottle := by
  have hsign : (0 < d ∧ ¬ d < 0) ∨ (d < 0 ∧ ¬ 0 < d) := by
    rcases lt_trichotomy d 0 with h | h | h
    · exact Or.inr ⟨h, not_lt.mpr h.le⟩
    · subst h; simp at hd; exact absurd hd (by norm_num)
    · exact Or.inl ⟨h, not_lt.mpr h.le⟩
  unfold handleWheel
  rw [if_neg (by simp [hg]), if_pos hd]
  rcases hsign with ⟨h1, h2⟩ | ⟨h1, h2⟩ <;>
    cases hs : w.currentState <;>
      simp [h1, h2, hs, specNext, specTable, timersOfEvent, detailsOfEvent]

/-- An over-threshold event with no table entry, handled with the guard
inactive, does exactly two things: it sets the guard and schedules the cooldown
timer. -/
theorem handleWheel_undefined (d : ℚ) (w : World) (hg : w.isTransitioning = false)
    (hd : 10 < |d|) (hn : specNext w.currentState d = none) :
    handleWheel d w =
      setTimeout Callback.resetTransition 600 { w with isTransitioning := true } := by
  have hsign : (0 < d ∧ ¬ d < 0) ∨ (d < 0 ∧ ¬ 0 < d) := by
    rcases lt_trichotomy d 0 with h | h | h
    · exact Or.inr ⟨h, not_lt.mpr h.le⟩
    · subst h; simp at hd; exact absurd hd (by norm_num)
    · exact Or.inl ⟨h, not_lt.mpr h.le⟩
  unfold handleWheel
  rw [if_neg (by simp [hg]), if_pos hd]
  rcases hsign with ⟨h1, h2⟩ | ⟨h1, h2⟩ <;>
    cases hs : w.currentState <;>
      simp [h1, h2, hs, specNext, specTable] at hn ⊢

/-- Either the handler returns the world untouched, or the event is over the
threshold and the guard was inactive. -/
theorem handleWheel_cases (d : ℚ) (w : World) :
    handleWheel d w = w ∨ (w.isTransitioning = false ∧ 10 < |d|) := by
  by_cases hg : w.isTransitioning = true
  · exact Or.inl (handleWheel_of_guard d w hg)
  · by_cases hd : 10 < |d|
    · exact Or.inr ⟨by simpa using hg, hd⟩
    · exact Or.inl (handleWheel_of_small d w (not_lt.mp hd))

/-- The table has no entry that stays in place. -/
theorem specNext_ne_self (s t : State) (d : ℚ) (h : specNext s d = some t) : t ≠ s := by
  unfold specNext at h
  split at h
  · cases s <;> simp [specTable] at h <;> subst h <;> decide
  · split at h
    · cases s <;> simp [specTable] at h <;> subst h <;> decide
    · exact absurd h (by simp)

/-- The listener, written out. -/
theorem wheelListener_eq (d : ℚ) (w : World) :
    wheelListener d w =
      if w.inThrottle = true then w
      else setTimeout Callback.resetThrottle 100 { handleWheel d w with inThrottle := true } := by
  unfold wheelListener throttle
  cases w.inThrottle <;> rfl

@[simp]
theorem animateTextLetters_currentState (w : World) :
    (animateTextLetters w).currentState = w.currentState := by
  unfold animateTextLetters; split <;> rfl
@[simp]
theorem animateTextLetters_isTransitioning (w : World) :
    (animateTextLetters w).isTransitioning = w.isTransitioning := by
  unfold animateTextLetters; split <;> rfl
@[simp]
theorem animateTextLetters_inThrottle (w : World) :
    (animateTextLetters w).inThrottle = w.inThrottle := by
  unfold animateTextLetters; split <;> rfl
@[simp]
theorem animateTextLetters_now (w : World) :
    (animateTextLetters w).now = w.now := by
  unfold animateTextLetters; split <;> rfl
@[simp]
theorem animateTextLetters_timers (w : World) :
    (animateTextLetters w).timers = w.timers := by
  unfold animateTextLetters; split <;> rfl
@[simp]
theorem animateTextLetters_dispatched (w : World) :
    (animateTextLetters w).dispatched = w.dispatched := by
  unfold animateTextLetters; split <;> rfl
@[simp]
theorem animateTextLetters_scheduled (w : World) :
    (animateTextLetters w).scheduled = w.scheduled := by
  unfold animateTextLetters; split <;> rfl

/-- A timer callback changes neither the state, nor what was dispatched, nor the
clock, nor the timers, nor the record of scheduled timers. -/
theorem runCallback_frame (cb : Callback) (w : World) :
    (runCallback cb w).currentState = w.currentState ∧
    (runCallback cb w).dispatched = w.dispatched ∧
    (runCallback cb w).now = w.now ∧
    (runCallback cb w).timers = w.timers ∧
    (runCallback cb w).scheduled = w.scheduled := by
  cases cb <;> simp [runCallback]

/-- Only `resetTransition` writes the guard, and it clears it. -/
theorem runCallback_isTransitioning (cb : Callback) (w : World) :
    (runCallback cb w).isTransitioning =
      if cb = Callback.resetTransition then false else w.isTransitioning := by
  cases cb <;> simp [runCallback]

/-- Removing the timer at a position lowers the count of the timers satisfying
a test by one when the removed timer satisfies it, and keeps it otherwise. -/
theorem countP_eraseIdx (p : Timer → Bool) :
    ∀ (l : List Timer) (i : Nat) (t : Timer), l.get? i = some t →
      l.countP p = (l.eraseIdx i).countP p + (if p t = true then 1 else 0)
  | [], i, t, h => by simp at h
  | a :: l, 0, t, h => by
    simp at h
    subst h
    by_cases hp : p a = true <;> simp [List.countP_cons, hp]
  | a :: l, i + 1, t, h => by
    simp at h
    have ih := countP_eraseIdx p l i t (by simpa using h)
    simp only [List.eraseIdx_cons_succ, List.countP_cons, ih]
    omega

/-- Every timer left after a removal was pending before it. -/
theorem mem_of_mem_eraseIdx {t : Timer} :
    ∀ (l : List Timer) (i : Nat), t ∈ l.eraseIdx i → t ∈ l
  | [], _, h => by simp at h
  | a :: l, 0, h => by simp at h; exact List.mem_cons_of_mem a h
  | a :: l, i + 1, h => by
    simp only [List.eraseIdx_cons_succ, List.mem_cons] at h
    rcases h with h | h
    · exact h ▸ List.mem_cons_self a l
    · exact List.mem_cons_of_mem a (mem_of_mem_eraseIdx l i h)

/-! ## The cooldown invariant -/

theorem pageLoad_cooldownInv (doc : Document) (t0 : Nat) :
    CooldownInv (pageLoad doc t0) := by
  simp [CooldownInv, pendingCount, pageLoad]

theorem handleWheel_cooldownInv (d : ℚ) (w : World) (h : CooldownInv w) :
    CooldownInv (handleWheel d w) := by
  rcases handleWheel_cases d w with he | ⟨hg, hd⟩
  · rw [he]; exact h
  · obtain ⟨-, -, ht, -, hg', -, -⟩ := handleWheel_accepted d w hg hd
    unfold CooldownInv pendingCount at h ⊢
    rw [hg] at h
    simp only [Bool.false_eq_true, if_false] at h
    rw [ht, hg', List.countP_append, h]
    by_cases hf : specNext w.currentState d = some State.FINAL <;>
      simp [timersOfEvent, hf, List.countP_cons]

theorem wheelListener_cooldownInv (d : ℚ) (w : World) (h : CooldownInv w) :
    CooldownInv (wheelListener d w) := by
  rw [wheelListener_eq]
  split
  · exact h
  · have h2 := handleWheel_cooldownInv d w h
    unfold CooldownInv pendingCount at h2 ⊢
    simpa [List.countP_append, List.countP_cons] using h2

/-- Firing a timer either does nothing (no such timer, or not yet due) or
removes a due timer and runs its callback. -/
theorem step_fire_cases (w : World) (k : Nat) :
    step w (Input.fire k) = w ∨
      ∃ t, w.timers.get? k = some t ∧ t.due ≤ w.now ∧
        step w (Input.fire k) =
          runCallback t.callback { w with timers := w.timers.eraseIdx k } := by
  cases hk : w.timers.get? k with
  | none => left; simp only [step, hk]
  | some t =>
    by_cases hd : t.due ≤ w.now
    · right; exact ⟨t, rfl, hd, by simp only [step, hk, hd, if_true]⟩
    · left; simp only [step, hk, hd, if_false]

theorem step_cooldownInv (w : World) (i : Input) (h : CooldownInv w) :
    CooldownInv (step w i) := by
  cases i with
  | wheel d => exact wheelListener_cooldownInv d w h
  | elapse ms => exact h
  | fire k =>
    rcases step_fire_cases w k with he | ⟨t, hk, -, he⟩
    · rw [he]; exact h
    · rw [he]
      have hc := countP_eraseIdx (fun t => decide (t.callback = Callback.resetTransition))
        w.timers k t hk
      unfold CooldownInv pendingCount at h ⊢
      obtain ⟨-, -, -, ht, -⟩ :=
        runCallback_frame t.callback { w with timers := w.timers.eraseIdx k }
      rw [ht, runCallback_isTransitioning]
      by_cases hcb : t.callback = Callback.resetTransition
      · simp only [hcb, decide_True, if_true] at hc ⊢
        rw [h] at hc
        by_cases hg : w.isTransitioning = true
        · rw [if_pos hg] at hc
          simp only [Bool.false_eq_true, if_false]
          omega
        · rw [if_neg hg] at hc
          omega
      · simp only [hcb, decide_False, if_false] at hc ⊢
        simp at hc
        rw [← hc]; exact h

theorem run_cooldownInv (inputs : List Input) :
    ∀ w : World, CooldownInv w → CooldownInv (run w inputs) := by
  induction inputs with
  | nil => intro w h; exact h
  | cons i rest ih => intro w h; exact ih (step w i) (step_cooldownInv w i h)

/-! ## One turn of the event loop -/

/-- The notification of an event is dispatched exactly when the event changes
the state, and it names the state after and the state before. -/
theorem handleWheel_dispatched (d : ℚ) (w : World) :
    (handleWheel d w).dispatched =
      w.dispatched ++
        (if (handleWheel d w).currentState ≠ w.currentState then
          [⟨(handleWheel d w).currentState, some w.currentState, w.now⟩]
         else []) := by
  rcases handleWheel_cases d w with he | ⟨hg, hd⟩
  · rw [he]; simp
  · obtain ⟨hs, hdis, -⟩ := handleWheel_accepted d w hg hd
    rw [hdis, hs]
    cases hn : specNext w.currentState d with
    | none => simp [detailsOfEvent]
    | some t => simp [detailsOfEvent, specNext_ne_self _ _ _ hn]

/-- The text reveal is scheduled exactly when the event changes the state to
FINAL. -/
theorem handleWheel_scheduledCount (d : ℚ) (w : World) :
    scheduledCount Callback.animate (handleWheel d w) =
      scheduledCount Callback.animate w +
        (if (handleWheel d w).currentState = State.FINAL ∧ w.currentState ≠ State.FINAL
         then 1 else 0) := by
  rcases handleWheel_cases d w with he | ⟨hg, hd⟩
  · rw [he]; simp
  · obtain ⟨hs, -, -, hsch, -⟩ := handleWheel_accepted d w hg hd
    unfold scheduledCount
    rw [hsch, hs, List.countP_append]
    cases hn : specNext w.currentState d with
    | none => simp [timersOfEvent, List.countP_cons]
    | some t =>
      have hne := specNext_ne_self _ _ _ hn
      by_cases ht : t = State.FINAL
      · subst ht
        simp [timersOfEvent, List.countP_cons, Ne.symm hne]
      · simp [timersOfEvent, List.countP_cons, ht]

theorem step_dispatched (w : World) (i : Input) :
    (step w i).dispatched =
      w.dispatched ++
        (if (step w i).currentState ≠ w.currentState then
          [⟨(step w i).currentState, some w.currentState, w.now⟩]
         else []) := by
  cases i with
  | wheel d =>
    show (wheelListener d w).dispatched = w.dispatched ++
      (if (wheelListener d w).currentState ≠ w.currentState then
        [⟨(wheelListener d w).currentState, some w.currentState, w.now⟩] else [])
    rw [wheelListener_eq]
    split
    · simp
    · exact handleWheel_dispatched d w
  | elapse ms => simp [step]
  | fire k =>
    rcases step_fire_cases w k with he | ⟨t, -, -, he⟩
    · rw [he]; simp
    · obtain ⟨h1, h2, -⟩ := runCallback_frame t.callback { w with timers := w.timers.eraseIdx k }
      rw [he, h1, h2]; simp

theorem step_scheduledCount (w : World) (i : Input) :
    scheduledCount Callback.animate (step w i) =
      scheduledCount Callback.animate w +
        (if (step w i).currentState = State.FINAL ∧ w.currentState ≠ State.FINAL
         then 1 else 0) := by
  cases i with
  | wheel d =>
    show scheduledCount Callback.animate (wheelListener d w) =
      scheduledCount Callback.animate w +
        (if (wheelListener d w).currentState = State.FINAL ∧ w.currentState ≠ State.FINAL
         then 1 else 0)
    rw [wheelListener_eq]
    split
    · simp
    · have h := handleWheel_scheduledCount d w
      unfold scheduledCount at h ⊢
      simpa [List.countP_append, List.countP_cons] using h
  | elapse ms => simp [step, scheduledCount]
  | fire k =>
    rcases step_fire_cases w k with he | ⟨t, -, -, he⟩
    · rw [he]; simp
    · obtain ⟨h1, -, -, -, h5⟩ :=
        runCallback_frame t.callback { w with timers := w.timers.eraseIdx k }
      unfold scheduledCount
      rw [he, h1, h5]; simp

/-- The clock moves only when time is let pass. -/
theorem step_now (w : World) (i : Input) : (step w i).now = w.now + elapsed [i] := by
  cases i with
  | wheel d =>
    show (wheelListener d w).now = _
    rw [wheelListener_eq]
    split
    · simp [elapsed]
    · rcases handleWheel_cases d w with he | ⟨hg, hd⟩
      · simp [he, elapsed]
      · obtain ⟨-, -, -, -, -, hn, -⟩ := handleWheel_accepted d w hg hd
        simp [hn, elapsed]
  | elapse ms => simp [step, elapsed]
  | fire k =>
    rcases step_fire_cases w k with he | ⟨t, -, -, he⟩
    · rw [he]; simp [elapsed]
    · obtain ⟨-, -, h3, -⟩ := runCallback_frame t.callback { w with timers := w.timers.eraseIdx k }
      rw [he, h3]; simp [elapsed]

theorem elapsed_cons (i : Input) (rest : List Input) :
    elapsed (i :: rest) = elapsed [i] + elapsed rest := by
  cases i <;> simp [elapsed]

/-- While the guard is active no turn changes the state or dispatches a
notification, whatever the turn is. -/
theorem step_of_guard (w : World) (i : Input) (hg : w.isTransitioning = true) :
    (step w i).currentState = w.currentState ∧ (step w i).dispatched = w.dispatched := by
  cases i with
  | wheel d =>
    show (wheelListener d w).currentState = _ ∧ (wheelListener d w).dispatched = _
    rw [wheelListener_eq]
    split
    · exact ⟨rfl, rfl⟩
    · simp [handleWheel_of_guard d w hg]
  | elapse ms => exact ⟨rfl, rfl⟩
  | fire k =>
    rcases step_fire_cases w k with he | ⟨t, -, -, he⟩
    · rw [he]; exact ⟨rfl, rfl⟩
    · obtain ⟨h1, h2, -⟩ := runCallback_frame t.callback { w with timers := w.timers.eraseIdx k }
      rw [he, h1, h2]; exact ⟨rfl, rfl⟩

/-! ## The cooldown window -/

theorem mem_of_get?_eq_some {t : Timer} :
    ∀ (l : List Timer) (i : Nat), l.get? i = some t → t ∈ l
  | [], _, h => by simp at h
  | a :: l, 0, h => by simp at h; subst h; exact List.mem_cons_self _ _
  | a :: l, i + 1, h =>
    List.mem_cons_of_mem a (mem_of_get?_eq_some l i (by simpa using h))

theorem step_cooldownWindow (D : Nat) (w : World) (i : Input) (h : CooldownWindow D w)
    (hn : w.now + elapsed [i] < D) : CooldownWindow D (step w i) := by
  obtain ⟨hg, ht⟩ := h
  cases i with
  | wheel d =>
    show CooldownWindow D (wheelListener d w)
    rw [wheelListener_eq]
    split
    · exact ⟨hg, ht⟩
    · rw [handleWheel_of_guard d w hg]
      refine ⟨hg, ?_⟩
      intro t hmem hcb
      simp only [setTimeout_timers, List.mem_append, List.mem_singleton] at hmem
      rcases hmem with hmem | hmem
      · exact ht t hmem hcb
      · subst hmem; exact absurd hcb (by simp)
  | elapse ms => exact ⟨hg, ht⟩
  | fire k =>
    rcases step_fire_cases w k with he | ⟨t, hk, hdue, he⟩
    · rw [he]; exact ⟨hg, ht⟩
    · have hcb : t.callback ≠ Callback.resetTransition := by
        intro hcb
        have := ht t (mem_of_get?_eq_some _ _ hk) hcb
        simp [elapsed] at hn
        omega
      obtain ⟨-, -, -, h4, -⟩ :=
        runCallback_frame t.callback { w with timers := w.timers.eraseIdx k }
      rw [he]
      refine ⟨?_, ?_⟩
      · rw [runCallback_isTransitioning, if_neg hcb]; exact hg
      · rw [h4]
        intro u hu hucb
        exact ht u (mem_of_mem_eraseIdx _ _ hu) hucb

/-- During the cooldown window nothing changes the state or dispatches a
notification, and the guard stays active. -/
theorem run_cooldownWindow (D : Nat) (inputs : List Input) :
    ∀ w : World, CooldownWindow D w → w.now + elapsed inputs < D →
      CooldownWindow D (run w inputs) ∧
        (run w inputs).currentState = w.currentState ∧
        (run w inputs).dispatched = w.dispatched := by
  induction inputs with
  | nil => intro w h _; exact ⟨h, rfl, rfl⟩
  | cons i rest ih =>
    intro w h hn
    rw [elapsed_cons] at hn
    have h1 := step_cooldownWindow D w i h (by omega)
    obtain ⟨hs, hd⟩ := step_of_guard w i h.1
    obtain ⟨h2, h3, h4⟩ := ih (step w i) h1 (by rw [step_now]; omega)
    exact ⟨h2, by rw [← hs]; exact h3, by rw [← hd]; exact h4⟩

/-- The world right after an accepted over-threshold event is at the start of a
cooldown window that lasts 600 ms, when no cooldown timer was pending. -/
theorem handleWheel_opens_window (d : ℚ) (w : World) (hinv : CooldownInv w)
    (hg : w.isTransitioning = false) (hd : 10 < |d|) :
    CooldownWindow (w.now + 600) (handleWheel d w) := by
  obtain ⟨-, -, ht, -, hg', -, -⟩ := handleWheel_accepted d w hg hd
  refine ⟨hg', ?_⟩
  intro t hmem hcb
  rw [ht] at hmem
  rcases List.mem_append.mp hmem with hmem | hmem
  · exfalso
    unfold CooldownInv pendingCount at hinv
    rw [hg] at hinv
    simp only [Bool.false_eq_true, if_false, List.countP_eq_zero] at hinv
    have := hinv t hmem
    simp [hcb] at this
  · unfold timersOfEvent at hmem
    split at hmem
    · simp at hmem
      rcases hmem with rfl | rfl
      · exact absurd hcb (by simp)
      · exact le_refl _
    · simp at hmem
      subst hmem
      exact le_refl _

theorem reachable_cooldownInv (w : World) (hr : Reachable w) : CooldownInv w := by
  obtain ⟨doc, t0, inputs, rfl⟩ := hr
  exact run_cooldownInv inputs _ (pageLoad_cooldownInv doc t0)

/-- The table read at a positive over-threshold delta is its Down column, at a
negative one its Up column. -/
theorem specNext_of_pos (s : State) (d : ℚ) (h : 0 < d) :
    specNext s d = specTable s Direction.down := by
  simp [specNext, h]

theorem specNext_of_neg (s : State) (d : ℚ) (h : d < 0) :
    specNext s d = specTable s Direction.up := by
  simp [specNext, h, not_lt.mpr h.le]

theorem abs_gt_of_pos {d : ℚ} (h : 10 < d) : 10 < |d| :=
  lt_of_lt_of_le h (le_abs_self d)

theorem abs_gt_of_neg {d : ℚ} (h : d < -10) : 10 < |d| := by
  have := neg_le_abs d
  linarith

/-! ## The claims -/

/-- C1: an over-threshold event (`|deltaY| > 10`) handled by `handleWheel` while
the guard is inactive moves `currentState` as the transition table of the
specification says, for every state and both directions: on a positive delta
(down) to the Down entry of the current state, on a negative delta (up) to its
Up entry, and where the table has no entry the state stays as it was. -/
theorem handleWheel_follows_table (d : ℚ) (w : World) (hg : w.isTransitioning = false)
    (hd : 10 < |d|) :
    (0 < d → (handleWheel d w).currentState =
      (specTable w.currentState Direction.down).getD w.currentState) ∧
    (d < 0 → (handleWheel d w).currentState =
      (specTable w.currentState Direction.up).getD w.currentState) := by
  obtain ⟨hs, -⟩ := handleWheel_accepted d w hg hd
  constructor
  · intro h; rw [hs, specNext_of_pos _ _ h]
  · intro h; rw [hs, specNext_of_neg _ _ h]

theorem handleWheel_follows_table_witness :
    (pageLoad blankDocument 0).isTransitioning = false ∧ (10 : ℚ) < |100| ∧
      (handleWheel 100 (pageLoad blankDocument 0)).currentState = State.TEAM_CARD :=
  ⟨by decide, by decide,
    (handleWheel_follows_table 100 (pageLoad blankDocument 0) (by decide) (by decide)).1
      (by decide)⟩

/-- C2: for an over-threshold delta, the pairs the table leaves undefined are
exactly up at PREVIEW, down at FINAL and both directions at HERO and at
PROJECTS_PREVIEW; on every such pair `handleWheel` (guard active or not) leaves
`currentState` unchanged and dispatches no `stateChange` notification. -/
theorem undefined_pair_is_ignored (d : ℚ) (w : World) (hd : 10 < |d|) :
    (specNext w.currentState d = none ↔
      ((w.currentState = State.PREVIEW ∧ d < 0) ∨ (w.currentState = State.FINAL ∧ 0 < d) ∨
        w.currentState = State.HERO ∨ w.currentState = State.PROJECTS_PREVIEW)) ∧
    (specNext w.currentState d = none →
      (handleWheel d w).currentState = w.currentState ∧
        (handleWheel d w).dispatched = w.dispatched) := by
  constructor
  · have hsign : (0 < d ∧ ¬ d < 0) ∨ (d < 0 ∧ ¬ 0 < d) := by
      rcases lt_trichotomy d 0 with h | h | h
      · exact Or.inr ⟨h, not_lt.mpr h.le⟩
      · subst h; simp at hd; exact absurd hd (by norm_num)
      · exact Or.inl ⟨h, not_lt.mpr h.le⟩
    rcases hsign with ⟨h1, h2⟩ | ⟨h1, h2⟩ <;>
      cases w.currentState <;> simp [specNext, specTable, h1, h2]
  · intro hn
    rcases handleWheel_cases d w with he | ⟨hg, -⟩
    · rw [he]; exact ⟨rfl, rfl⟩
    · obtain ⟨hs, hdis, -⟩ := handleWheel_accepted d w hg hd
      rw [hs, hdis, hn]
      simp [detailsOfEvent]

theorem undefined_pair_is_ignored_witness :
    (10 : ℚ) < |(-100)| ∧ specNext (pageLoad blankDocument 0).currentState (-100) = none ∧
      (handleWheel (-100) (pageLoad blankDocument 0)).currentState =
        (pageLoad blankDocument 0).currentState ∧
      (handleWheel (-100) (pageLoad blankDocument 0)).dispatched =
        (pageLoad blankDocument 0).dispatched :=
  ⟨by decide, by decide,
    (undefined_pair_is_ignored (-100) (pageLoad blankDocument 0) (by decide)).2 (by decide)⟩

/-- C3, as the specification states it, fails at the load-time world: an up
event of delta -100 at PREVIEW has no table entry, yet after it the guard is
active, and a down event of delta 100 that arrives 599 ms later, for which the
table gives TEAM_CARD, is dropped: the state is still PREVIEW. -/
theorem ignored_event_sets_guard_counterexample :
    (pageLoad blankDocument 0).isTransitioning = false ∧
    specNext (pageLoad blankDocument 0).currentState (-100) = none ∧
    (handleWheel (-100) (pageLoad blankDocument 0)).isTransitioning = true ∧
    specNext (run (handleWheel (-100) (pageLoad blankDocument 0))
      [Input.elapse 599]).currentState 100 = some State.TEAM_CARD ∧
    (handleWheel 100 (run (handleWheel (-100) (pageLoad blankDocument 0))
      [Input.elapse 599])).currentState = State.PREVIEW := by
  decide

/-- C3, amended: an over-threshold event whose direction has no table entry for
the current state, handled in a reachable world while the guard is inactive,
changes nothing but the guard and the timers: it activates the guard and
schedules the 600 ms cooldown timer, and leaves the state, every marker and
the notifications as they were. Consequently an event handled less than 600 ms
after such an ignored event, whatever happened in between, is dropped. -/
theorem ignored_event_starts_cooldown (d : ℚ) (w : World) (hr : Reachable w)
    (hg : w.isTransitioning = false) (hd : 10 < |d|)
    (hn : specNext w.currentState d = none) :
    handleWheel d w =
      setTimeout Callback.resetTransition 600 { w with isTransitioning := true } ∧
    ∀ (mid : List Input) (d2 : ℚ), elapsed mid < 600 →
      handleWheel d2 (run (handleWheel d w) mid) = run (handleWheel d w) mid ∧
        (run (handleWheel d w) mid).currentState = w.currentState := by
  refine ⟨handleWheel_undefined d w hg hd hn, ?_⟩
  intro mid d2 hmid
  have hwin := handleWheel_opens_window d w (reachable_cooldownInv w hr) hg hd
  obtain ⟨hs, -, -, -, -, hnow, -⟩ := handleWheel_accepted d w hg hd
  obtain ⟨h1, h2, -⟩ := run_cooldownWindow (w.now + 600) mid (handleWheel d w) hwin
    (by rw [hnow]; omega)
  refine ⟨handleWheel_of_guard d2 _ h1.1, ?_⟩
  rw [h2, hs, hn]
  rfl

theorem ignored_event_starts_cooldown_witness :
    Reachable (pageLoad blankDocument 0) ∧
    (pageLoad blankDocument 0).isTransitioning = false ∧ (10 : ℚ) < |(-100)| ∧
    specNext (pageLoad blankDocument 0).currentState (-100) = none ∧
    handleWheel (-100) (pageLoad blankDocument 0) =
      setTimeout Callback.resetTransition 600
        { pageLoad blankDocument 0 with isTransitioning := true } :=
  ⟨⟨blankDocument, 0, [], rfl⟩, by decide, by decide, by decide,
    (ignored_event_starts_cooldown (-100) (pageLoad blankDocument 0)
      ⟨blankDocument, 0, [], rfl⟩ (by decide) (by decide) (by decide)).1⟩

/-- C4: dead zone. An event with `|deltaY| ≤ 10` (so also 0, 5, 10 and -10)
returns the world exactly as it was, in every state and whatever the guard:
no change of `currentState`, of the guard or of any marker, no notification,
no timer. Every event with `|deltaY| > 10` is past the dead zone: handled with
the guard inactive it sets the guard and schedules one cooldown timer. -/
theorem dead_zone (d : ℚ) (w : World) :
    (|d| ≤ 10 → handleWheel d w = w) ∧
    (10 < |d| → w.isTransitioning = false →
      (handleWheel d w).isTransitioning = true ∧
        scheduledCount Callback.resetTransition (handleWheel d w) =
          scheduledCount Callback.resetTransition w + 1) := by
  refine ⟨handleWheel_of_small d w, ?_⟩
  intro hd hg
  obtain ⟨-, -, -, hsch, hg', -⟩ := handleWheel_accepted d w hg hd
  refine ⟨hg', ?_⟩
  unfold scheduledCount
  rw [hsch, List.countP_append]
  by_cases hf : specNext w.currentState d = some State.FINAL <;>
    simp [timersOfEvent, hf, List.countP_cons]

theorem dead_zone_witness :
    (|(10 : ℚ)| ≤ 10 ∧ handleWheel 10 (pageLoad blankDocument 0) = pageLoad blankDocument 0) ∧
    (|(-10 : ℚ)| ≤ 10 ∧
      handleWheel (-10) (pageLoad blankDocument 0) = pageLoad blankDocument 0) ∧
    ((10 : ℚ) < |11| ∧ (pageLoad blankDocument 0).isTransitioning = false ∧
      (handleWheel 11 (pageLoad blankDocument 0)).isTransitioning = true) :=
  ⟨⟨by decide, (dead_zone 10 (pageLoad blankDocument 0)).1 (by decide)⟩,
    ⟨by decide, (dead_zone (-10) (pageLoad blankDocument 0)).1 (by decide)⟩,
    ⟨by decide, by decide,
      ((dead_zone 11 (pageLoad blankDocument 0)).2 (by decide) (by decide)).1⟩⟩

theorem foldl_handleWheel_of_guard (w : World) (hg : w.isTransitioning = true) :
    ∀ ds : List ℚ, ds.foldl (fun v d => handleWheel d v) w = w
  | [] => rfl
  | d :: ds => by
    rw [List.foldl_cons, handleWheel_of_guard d w hg]
    exact foldl_handleWheel_of_guard w hg ds

theorem run_of_guardActiveBefore (inputs : List Input) :
    ∀ w : World, guardActiveBefore w inputs →
      (run w inputs).currentState = w.currentState ∧
        (run w inputs).dispatched = w.dispatched := by
  induction inputs with
  | nil => intro w _; exact ⟨rfl, rfl⟩
  | cons i rest ih =>
    intro w h
    obtain ⟨hs, hd⟩ := step_of_guard w i h.1
    obtain ⟨h1, h2⟩ := ih (step w i) h.2
    exact ⟨by rw [← hs]; exact h1, by rw [← hd]; exact h2⟩

/-- C5: while the guard `isTransitioning` is active, `handleWheel` returns the
world exactly as it was for every delta and in every state: no change of
`currentState` or of any marker, no notification, no timer. The dropped events
leave no trace: after any number of them, running the cooldown callback gives
the world the guard was set in with only the guard cleared; and along any
sequence of turns of the event loop before each of which the guard is active
(the last of them may be the one that clears it) the state and the
notifications stay what they were. -/
theorem guarded_event_dropped (w : World) (hg : w.isTransitioning = true) :
    (∀ d : ℚ, handleWheel d w = w) ∧
    (∀ ds : List ℚ,
      runCallback Callback.resetTransition (ds.foldl (fun v d => handleWheel d v) w) =
        { w with isTransitioning := false }) ∧
    (∀ inputs : List Input, guardActiveBefore w inputs →
      (run w inputs).currentState = w.currentState ∧
        (run w inputs).dispatched = w.dispatched) := by
  refine ⟨fun d => handleWheel_of_guard d w hg, ?_, fun inputs => run_of_guardActiveBefore inputs w⟩
  intro ds
  rw [foldl_handleWheel_of_guard w hg ds]
  rfl

theorem guarded_event_dropped_witness :
    (handleWheel 100 (pageLoad blankDocument 0)).isTransitioning = true ∧
    handleWheel 100 (handleWheel 100 (pageLoad blankDocument 0)) =
      handleWheel 100 (pageLoad blankDocument 0) :=
  ⟨by decide,
    (guarded_event_dropped (handleWheel 100 (pageLoad blankDocument 0)) (by decide)).1 100⟩

theorem run_dispatched (inputs : List Input) :
    ∀ w : World, (run w inputs).dispatched = w.dispatched ++ transitionsOf w inputs := by
  induction inputs with
  | nil => intro w; simp [run, transitionsOf]
  | cons i rest ih =>
    intro w
    show (run (step w i) rest).dispatched = _
    rw [ih (step w i), step_dispatched w i, transitionsOf, List.append_assoc]

/-- C6: every event handled by `handleWheel` either leaves the state alone and
dispatches nothing, or changes the state to the table's entry for the state
before and dispatches exactly one notification, whose `current` is the state
after the event, whose `previous` is the state before it and whose timestamp is
the clock at the event. The page load dispatches the one initial notification;
after it, over any sequence of turns of the event loop, the notifications
dispatched are exactly the state changes of the run, in their order. -/
theorem one_notification_per_transition :
    (∀ (d : ℚ) (w : World),
      ((handleWheel d w).currentState = w.currentState ∧
        (handleWheel d w).dispatched = w.dispatched) ∨
      ((handleWheel d w).currentState ≠ w.currentState ∧
        specNext w.currentState d = some (handleWheel d w).currentState ∧
        (handleWheel d w).dispatched =
          w.dispatched ++ [⟨(handleWheel d w).currentState, some w.currentState, w.now⟩])) ∧
    (∀ (doc : Document) (t0 : Nat),
      (pageLoad doc t0).dispatched = [⟨State.PREVIEW, none, t0⟩]) ∧
    (∀ (w : World) (inputs : List Input),
      (run w inputs).dispatched = w.dispatched ++ transitionsOf w inputs) := by
  refine ⟨?_, ?_, fun w inputs => run_dispatched inputs w⟩
  · intro d w
    rcases handleWheel_cases d w with he | ⟨hg, hd⟩
    · left; rw [he]; exact ⟨rfl, rfl⟩
    · obtain ⟨hs, hdis, -⟩ := handleWheel_accepted d w hg hd
      cases hn : specNext w.currentState d with
      | none => left; rw [hs, hdis, hn]; simp [detailsOfEvent]
      | some t =>
        right
        rw [hs, hdis, hn]
        exact ⟨specNext_ne_self _ _ _ hn, rfl, rfl⟩
  · intro doc t0
    simp [pageLoad]

/-- An accepted down event moves the state to the Down entry of the table, or
leaves it where there is none. -/
theorem handleWheel_down (d : ℚ) (w : World) (hg : w.isTransitioning = false)
    (hd : 10 < d) :
    (handleWheel d w).currentState =
      (specTable w.currentState Direction.down).getD w.currentState := by
  obtain ⟨hs, -⟩ := handleWheel_accepted d w hg (abs_gt_of_pos hd)
  rw [hs, specNext_of_pos _ _ (by linarith)]

/-- An accepted up event moves the state to the Up entry of the table, or
leaves it where there is none. -/
theorem handleWheel_up (d : ℚ) (w : World) (hg : w.isTransitioning = false)
    (hd : d < -10) :
    (handleWheel d w).currentState =
      (specTable w.currentState Direction.up).getD w.currentState := by
  obtain ⟨hs, -⟩ := handleWheel_accepted d w hg (abs_gt_of_neg hd)
  rw [hs, specNext_of_neg _ _ (by linarith)]

/-- The cooldown callback clears the guard and keeps the state. -/
theorem resetTransition_fields (w : World) :
    (runCallback Callback.resetTransition w).isTransitioning = false ∧
      (runCallback Callback.resetTransition w).currentState = w.currentState :=
  ⟨rfl, rfl⟩

/-- C7: up retraces down. Reading "an event takes S to T" as "the event, handled
with the guard inactive in state S, changes the state to T": a down event
(delta above 10) takes S to T exactly when an up event (delta below -10) takes
T to S, for all states S and T. Starting in PREVIEW, four down events, each
handled after the cooldown of the one before has ended, visit TEAM_CARD,
PROJECTS, TEAM and FINAL in this order; starting in FINAL, four up events
visit TEAM, PROJECTS, TEAM_CARD and PREVIEW. -/
theorem up_retraces_down :
    (∀ (S T : State) (d u : ℚ) (w v : World), 10 < d → u < -10 →
      w.isTransitioning = false → v.isTransitioning = false →
      w.currentState = S → v.currentState = T →
      (((handleWheel d w).currentState = T ∧ T ≠ S) ↔
        ((handleWheel u v).currentState = S ∧ S ≠ T))) ∧
    (∀ (w : World) (d1 d2 d3 d4 : ℚ), w.currentState = State.PREVIEW →
      w.isTransitioning = false → 10 < d1 → 10 < d2 → 10 < d3 → 10 < d4 →
      statesVisited w [d1, d2, d3, d4] =
        [State.TEAM_CARD, State.PROJECTS, State.TEAM, State.FINAL]) ∧
    (∀ (w : World) (u1 u2 u3 u4 : ℚ), w.currentState = State.FINAL →
      w.isTransitioning = false → u1 < -10 → u2 < -10 → u3 < -10 → u4 < -10 →
      statesVisited w [u1, u2, u3, u4] =
        [State.TEAM, State.PROJECTS, State.TEAM_CARD, State.PREVIEW]) := by
  refine ⟨?_, ?_, ?_⟩
  · intro S T d u w v hd hu hgw hgv hS hT
    rw [handleWheel_down d w hgw hd, handleWheel_up u v hgv hu, hS, hT]
    cases S <;> cases T <;> simp [specTable]
  · intro w d1 d2 d3 d4 hs hg h1 h2 h3 h4
    have e1 := handleWheel_down d1 w hg h1
    rw [hs] at e1
    have e2 := handleWheel_down d2 (runCallback Callback.resetTransition (handleWheel d1 w))
      rfl h2
    rw [(resetTransition_fields _).2, e1] at e2
    have e3 := handleWheel_down d3 (runCallback Callback.resetTransition (handleWheel d2
      (runCallback Callback.resetTransition (handleWheel d1 w)))) rfl h3
    rw [(resetTransition_fields _).2, e2] at e3
    have e4 := handleWheel_down d4 (runCallback Callback.resetTransition (handleWheel d3
      (runCallback Callback.resetTransition (handleWheel d2
        (runCallback Callback.resetTransition (handleWheel d1 w)))))) rfl h4
    rw [(resetTransition_fields _).2, e3] at e4
    simp only [statesVisited, e1, e2, e3, e4]
    rfl
  · intro w u1 u2 u3 u4 hs hg h1 h2 h3 h4
    have e1 := handleWheel_up u1 w hg h1
    rw [hs] at e1
    have e2 := handleWheel_up u2 (runCallback Callback.resetTransition (handleWheel u1 w))
      rfl h2
    rw [(resetTransition_fields _).2, e1] at e2
    have e3 := handleWheel_up u3 (runCallback Callback.resetTransition (handleWheel u2
      (runCallback Callback.resetTransition (handleWheel u1 w)))) rfl h3
    rw [(resetTransition_fields _).2, e2] at e3
    have e4 := handleWheel_up u4 (runCallback Callback.resetTransition (handleWheel u3
      (runCallback Callback.resetTransition (handleWheel u2
        (runCallback Callback.resetTransition (handleWheel u1 w)))))) rfl h4
    rw [(resetTransition_fields _).2, e3] at e4
    simp only [statesVisited, e1, e2, e3, e4]
    rfl

theorem up_retraces_down_witness :
    (((10 : ℚ) < 100 ∧ (-100 : ℚ) < -10 ∧
        (pageLoad blankDocument 0).isTransitioning = false ∧
        (runCallback Callback.resetTransition
          (handleWheel 100 (pageLoad blankDocument 0))).isTransitioning = false) ∧
      (((handleWheel 100 (pageLoad blankDocument 0)).currentState = State.TEAM_CARD ∧
          State.TEAM_CARD ≠ State.PREVIEW) ↔
        ((handleWheel (-100) (runCallback Callback.resetTransition
            (handleWheel 100 (pageLoad blankDocument 0)))).currentState = State.PREVIEW ∧
          State.PREVIEW ≠ State.TEAM_CARD))) ∧
    statesVisited (pageLoad blankDocument 0) [100, 100, 100, 100] =
      [State.TEAM_CARD, State.PROJECTS, State.TEAM, State.FINAL] :=
  ⟨⟨⟨by decide, by decide, by decide, by decide⟩,
      up_retraces_down.1 State.PREVIEW State.TEAM_CARD 100 (-100)
        (pageLoad blankDocument 0)
        (runCallback Callback.resetTransition (handleWheel 100 (pageLoad blankDocument 0)))
        (by decide) (by decide) (by decide) (by decide) (by decide) (by decide)⟩,
    up_retraces_down.2.1 (pageLoad blankDocument 0) 100 100 100 100 (by decide) (by decide)
      (by decide) (by decide) (by decide) (by decide)⟩

/-- C8: in a reachable world with the guard inactive and a Down entry `T` for
the current state, take an over-threshold down event, then any turns of the
event loop during which less than 600 ms pass (timers firing only once due),
then a second event, of any delta (so also a second over-threshold down event).
Exactly one transition results: the first event fires and the second is
dropped, the state ends at `T`, one step from the starting state, and exactly
one notification has been added. -/
theorem two_downs_within_cooldown (w : World) (hr : Reachable w) (d1 d2 : ℚ)
    (mid : List Input) (T : State) (hg : w.isTransitioning = false) (h1 : 10 < d1)
    (hT : specTable w.currentState Direction.down = some T) (hmid : elapsed mid < 600) :
    (handleWheel d1 w).currentState = T ∧
    handleWheel d2 (run (handleWheel d1 w) mid) = run (handleWheel d1 w) mid ∧
    (handleWheel d2 (run (handleWheel d1 w) mid)).currentState = T ∧
    (handleWheel d2 (run (handleWheel d1 w) mid)).dispatched =
      w.dispatched ++ [⟨T, some w.currentState, w.now⟩] := by
  have hd1 := abs_gt_of_pos h1
  have hwin := handleWheel_opens_window d1 w (reachable_cooldownInv w hr) hg hd1
  obtain ⟨hs, hdis, -, -, -, hnow, -⟩ := handleWheel_accepted d1 w hg hd1
  rw [specNext_of_pos _ _ (by linarith), hT] at hs hdis
  obtain ⟨hw, hs2, hdis2⟩ := run_cooldownWindow (w.now + 600) mid (handleWheel d1 w) hwin
    (by rw [hnow]; omega)
  have hdrop := handleWheel_of_guard d2 _ hw.1
  refine ⟨hs, hdrop, ?_, ?_⟩
  · rw [hdrop, hs2, hs]; rfl
  · rw [hdrop, hdis2, hdis]; rfl

theorem two_downs_within_cooldown_witness :
    (Reachable (pageLoad blankDocument 0) ∧
      (pageLoad blankDocument 0).isTransitioning = false ∧ (10 : ℚ) < 100 ∧
      specTable (pageLoad blankDocument 0).currentState Direction.down =
        some State.TEAM_CARD ∧
      elapsed [Input.elapse 100, Input.wheel 120, Input.fire 0, Input.elapse 499] < 600) ∧
    (handleWheel 120 (run (handleWheel 100 (pageLoad blankDocument 0))
      [Input.elapse 100, Input.wheel 120, Input.fire 0, Input.elapse 499])).currentState =
        State.TEAM_CARD :=
  ⟨⟨⟨blankDocument, 0, [], rfl⟩, by decide, by decide, by decide, by decide⟩,
    (two_downs_within_cooldown (pageLoad blankDocument 0) ⟨blankDocument, 0, [], rfl⟩ 100 120
      [Input.elapse 100, Input.wheel 120, Input.fire 0, Input.elapse 499] State.TEAM_CARD
      (by decide) (by decide) (by decide) (by decide)).2.2.1⟩

theorem wheelListener_timers_of_guard (d : ℚ) (w : World) (hg : w.isTransitioning = true) :
    (wheelListener d w).timers.filter (fun t => decide (t.callback = Callback.resetTransition)) =
      w.timers.filter (fun t => decide (t.callback = Callback.resetTransition)) := by
  rw [wheelListener_eq]
  split
  · rfl
  · rw [handleWheel_of_guard d w hg]
    simp [List.filter_append, List.filter_cons]

/-- C9: the cooldown invariant. In every reachable world at most one cooldown
timer is pending, and the guard is active exactly when one is pending. While
the guard is active a wheel event delivered to the listener leaves the pending
cooldown timers as they are (it neither adds one nor moves a due time); an
event that changes the state sets the guard in the same call and schedules the
cooldown timer due 600 ms later; and whenever a pending cooldown timer fires,
the guard is cleared and no cooldown timer is left pending. -/
theorem cooldown_invariant (w : World) (hr : Reachable w) :
    pendingCount Callback.resetTransition w ≤ 1 ∧
    (w.isTransitioning = true ↔ pendingCount Callback.resetTransition w = 1) ∧
    (∀ d : ℚ, w.isTransitioning = true →
      (step w (Input.wheel d)).timers.filter
          (fun t => decide (t.callback = Callback.resetTransition)) =
        w.timers.filter (fun t => decide (t.callback = Callback.resetTransition))) ∧
    (∀ d : ℚ, (handleWheel d w).currentState ≠ w.currentState →
      (handleWheel d w).isTransitioning = true ∧
        (⟨w.now + 600, Callback.resetTransition⟩ : Timer) ∈ (handleWheel d w).timers ∧
        pendingCount Callback.resetTransition (handleWheel d w) = 1) ∧
    (∀ (k : Nat) (t : Timer), w.timers.get? k = some t →
      t.callback = Callback.resetTransition → t.due ≤ w.now →
      (step w (Input.fire k)).isTransitioning = false ∧
        pendingCount Callback.resetTransition (step w (Input.fire k)) = 0) := by
  have hinv := reachable_cooldownInv w hr
  refine ⟨?_, ?_, ?_, ?_, ?_⟩
  · unfold CooldownInv at hinv
    rw [hinv]; split <;> omega
  · unfold CooldownInv at hinv
    rw [hinv]
    by_cases hg : w.isTransitioning = true <;> simp [hg]
  · intro d hg
    exact wheelListener_timers_of_guard d w hg
  · intro d hne
    rcases handleWheel_cases d w with he | ⟨hg, hd⟩
    · exact absurd (by rw [he]) hne
    · obtain ⟨-, -, ht, -, hg', -, -⟩ := handleWheel_accepted d w hg hd
      have hinv2 := handleWheel_cooldownInv d w hinv
      unfold CooldownInv at hinv2
      rw [hg'] at hinv2
      refine ⟨hg', ?_, by simpa using hinv2⟩
      rw [ht]
      simp [timersOfEvent]
  · intro k t hk hcb hdue
    have hstep : step w (Input.fire k) =
        runCallback t.callback { w with timers := w.timers.eraseIdx k } := by
      simp only [step, hk, hdue, if_true]
    have hinv3 := step_cooldownInv w (Input.fire k) hinv
    have hg3 : (step w (Input.fire k)).isTransitioning = false := by
      rw [hstep, hcb]; rfl
    unfold CooldownInv at hinv3
    rw [hg3] at hinv3
    exact ⟨hg3, by simpa using hinv3⟩

theorem cooldown_invariant_witness :
    Reachable (run (pageLoad blankDocument 0) [Input.wheel 100]) ∧
    pendingCount Callback.resetTransition (run (pageLoad blankDocument 0) [Input.wheel 100]) ≤ 1 ∧
    ((run (pageLoad blankDocument 0) [Input.wheel 100]).isTransitioning = true ↔
      pendingCount Callback.resetTransition
        (run (pageLoad blankDocument 0) [Input.wheel 100]) = 1) :=
  ⟨⟨blankDocument, 0, [Input.wheel 100], rfl⟩,
    (cooldown_invariant (run (pageLoad blankDocument 0) [Input.wheel 100])
      ⟨blankDocument, 0, [Input.wheel 100], rfl⟩).1,
    (cooldown_invariant (run (pageLoad blankDocument 0) [Input.wheel 100])
      ⟨blankDocument, 0, [Input.wheel 100], rfl⟩).2.1⟩

theorem run_scheduledCount (inputs : List Input) :
    ∀ w : World, scheduledCount Callback.animate (run w inputs) =
      scheduledCount Callback.animate w + entriesIntoFinal w inputs := by
  induction inputs with
  | nil => intro w; simp [run, entriesIntoFinal]
  | cons i rest ih =>
    intro w
    show scheduledCount Callback.animate (run (step w i) rest) = _
    rw [ih (step w i), step_scheduledCount w i, entriesIntoFinal, Nat.add_assoc]

/-- C10: the page load, with its initial notification, schedules no text
reveal; after it, over every sequence of turns of the event loop, the number of
`animateTextLetters` timers scheduled equals the number of turns at which the
state changes to FINAL; and each event handled by `handleWheel` schedules
exactly one when it changes the state to FINAL and none otherwise. -/
theorem text_reveal_per_entry (doc : Document) (t0 : Nat) (inputs : List Input) :
    scheduledCount Callback.animate (pageLoad doc t0) = 0 ∧
    scheduledCount Callback.animate (run (pageLoad doc t0) inputs) =
      entriesIntoFinal (pageLoad doc t0) inputs ∧
    (∀ (d : ℚ) (w : World),
      scheduledCount Callback.animate (handleWheel d w) =
        scheduledCount Callback.animate w +
          (if (handleWheel d w).currentState = State.FINAL ∧ w.currentState ≠ State.FINAL
           then 1 else 0)) := by
  have h0 : scheduledCount Callback.animate (pageLoad doc t0) = 0 := by
    simp [scheduledCount, pageLoad]
  refine ⟨h0, ?_, fun d w => handleWheel_scheduledCount d w⟩
  rw [run_scheduledCount, h0, Nat.zero_add]

/-! ## The throttle -/

/-- A call made while `inThrottle` is unset is forwarded at once: `func` runs on
the world as it is, then the flag is set and the re-enable timer scheduled. -/
theorem throttle_of_open {α : Type} (func : α → World → World) (limit : Nat) (args : α)
    (w : World) (h : w.inThrottle = false) :
    throttle func limit args w =
      setTimeout Callback.resetThrottle limit { func args w with inThrottle := true } := by
  unfold throttle
  rw [h]
  rfl

/-- A call made while `inThrottle` is set returns the world untouched. -/
theorem throttle_of_throttled {α : Type} (func : α → World → World) (limit : Nat)
    (args : α) (w : World) (h : w.inThrottle = true) :
    throttle func limit args w = w := by
  unfold throttle
  rw [h]
  rfl

/-- Only `resetThrottle` writes `inThrottle`, and it clears it. -/
theorem runCallback_inThrottle (cb : Callback) (w : World) :
    (runCallback cb w).inThrottle =
      if cb = Callback.resetThrottle then false else w.inThrottle := by
  cases cb <;> simp [runCallback]

theorem stepWith_fire_cases (listener : ℚ → World → World) (w : World) (k : Nat) :
    stepWith listener w (Input.fire k) = w ∨
      ∃ t, w.timers.get? k = some t ∧ t.due ≤ w.now ∧
        stepWith listener w (Input.fire k) =
          runCallback t.callback { w with timers := w.timers.eraseIdx k } :=
  step_fire_cases w k

/-- The page's event loop is the event loop with the listener it registers. -/
theorem step_eq_stepWith (w : World) (i : Input) : step w i = stepWith wheelListener w i := by
  cases i <;> rfl

theorem run_eq_runWith (inputs : List Input) :
    ∀ w : World, run w inputs = runWith wheelListener w inputs := by
  induction inputs with
  | nil => intro w; rfl
  | cons i rest ih =>
    intro w
    show run (step w i) rest = runWith wheelListener (stepWith wheelListener w i) rest
    rw [ih, step_eq_stepWith]

theorem countP_eq_zero_of_filter_nil (p : Timer → Bool) (l : List Timer)
    (h : l.countP p = 0) : l.filter p = [] := by
  rw [List.countP_eq_length_filter] at h
  exact List.length_eq_zero.mp h

/-- The throttle invariant after a forwarded call: the next one cannot come
before `limit` ms have passed. -/
theorem throttle_inv_of_open (func : ℚ → World → World) (limit : Nat)
    (hf : ThrottleFrame func) (lo : Nat) (args : ℚ) (w : World) (hinv : ThrottleInv lo w)
    (h : w.inThrottle = false) :
    ThrottleInv (w.now + limit) (throttle func limit args w) := by
  obtain ⟨-, hB, -⟩ := hinv
  obtain ⟨hc0, -⟩ := hB h
  obtain ⟨-, hnow, hfil⟩ := hf args w
  have hnil : (func args w).timers.filter
      (fun t => decide (t.callback = Callback.resetThrottle)) = [] := by
    rw [hfil]; exact countP_eq_zero_of_filter_nil _ _ hc0
  rw [throttle_of_open func limit args w h]
  refine ⟨?_, ?_, ?_⟩
  · unfold pendingCount
    simp only [setTimeout_timers]
    rw [List.countP_append, List.countP_eq_length_filter, hnil]
    simp [List.countP_cons]
  · intro hfalse
    simp [setTimeout] at hfalse
  · intro t hmem hcb
    simp only [setTimeout_timers, List.mem_append, List.mem_singleton] at hmem
    rcases hmem with hmem | hmem
    · have : t ∈ (func args w).timers.filter
          (fun t => decide (t.callback = Callback.resetThrottle)) := by
        simp [List.mem_filter, hmem, hcb]
      rw [hnil] at this
      simp at this
    · subst hmem
      show w.now + limit ≤ (func args w).now + limit
      rw [hnow]

/-- The throttle invariant is kept by the turns that are not wheel events. -/
theorem throttle_inv_of_timerTurn (listener : ℚ → World → World) (lo : Nat) (w : World)
    (i : Input) (hi : i.isTimerTurn = true) (hinv : ThrottleInv lo w) :
    ThrottleInv lo (stepWith listener w i) := by
  obtain ⟨hA, hB, hC⟩ := hinv
  cases i with
  | wheel d => simp [Input.isTimerTurn] at hi
  | elapse ms =>
    refine ⟨hA, ?_, hC⟩
    intro h
    obtain ⟨h1, h2⟩ := hB h
    exact ⟨h1, by show lo ≤ w.now + ms; omega⟩
  | fire k =>
    rcases stepWith_fire_cases listener w k with he | ⟨t, hk, hdue, he⟩
    · rw [he]; exact ⟨hA, hB, hC⟩
    · rw [he]
      have hc := countP_eraseIdx (fun t => decide (t.callback = Callback.resetThrottle))
        w.timers k t hk
      obtain ⟨-, -, h3, h4, -⟩ :=
        runCallback_frame t.callback { w with timers := w.timers.eraseIdx k }
      have hmemC : ∀ u ∈ (runCallback t.callback
          { w with timers := w.timers.eraseIdx k }).timers,
          u.callback = Callback.resetThrottle → lo ≤ u.due := by
        intro u hu hucb
        rw [h4] at hu
        exact hC u (mem_of_mem_eraseIdx _ _ hu) hucb
      unfold pendingCount at hA hB
      unfold ThrottleInv pendingCount
      by_cases hcb : t.callback = Callback.resetThrottle
      · simp only [hcb, decide_True, if_true] at hc
        have hlo := hC t (mem_of_get?_eq_some _ _ hk) hcb
        refine ⟨by rw [h4]; show List.countP _ (w.timers.eraseIdx k) ≤ 1; omega, ?_, hmemC⟩
        intro _
        refine ⟨by rw [h4]; show List.countP _ (w.timers.eraseIdx k) = 0; omega, ?_⟩
        rw [h3]
        show lo ≤ w.now
        omega
      · simp only [hcb, decide_False, if_false] at hc
        simp only [Bool.false_eq_true, if_false, Nat.add_zero] at hc
        refine ⟨by rw [h4]; show List.countP _ (w.timers.eraseIdx k) ≤ 1; omega, ?_, hmemC⟩
        intro hfalse
        rw [runCallback_inThrottle, if_neg hcb] at hfalse
        obtain ⟨h1, h2⟩ := hB hfalse
        refine ⟨by rw [h4]; show List.countP _ (w.timers.eraseIdx k) = 0; omega, ?_⟩
        rw [h3]
        exact h2

/-- Along any sequence of turns, every forwarded call comes no earlier than the
bound of the invariant, and two forwarded calls are at least `limit` ms
apart. -/
theorem forwardedAt_separated (func : ℚ → World → World) (limit : Nat)
    (hf : ThrottleFrame func) (inputs : List Input) :
    ∀ (w : World) (lo : Nat), ThrottleInv lo w →
      (∀ t ∈ forwardedAt func limit w inputs, lo ≤ t) ∧
        (forwardedAt func limit w inputs).Pairwise (fun a b => a + limit ≤ b) := by
  induction inputs with
  | nil => intro w lo _; simp [forwardedAt]
  | cons i rest ih =>
    intro w lo hinv
    cases i with
    | wheel d =>
      by_cases h : w.inThrottle = false
      · obtain ⟨h1, h2⟩ := ih (throttle func limit d w) (w.now + limit)
          (throttle_inv_of_open func limit hf lo d w hinv h)
        have hlo := (hinv.2.1 h).2
        simp only [forwardedAt, stepWith, h, if_true, List.singleton_append]
        refine ⟨?_, List.pairwise_cons.mpr ⟨fun b hb => h1 b hb, h2⟩⟩
        intro t ht
        rcases List.mem_cons.mp ht with rfl | ht
        · exact hlo
        · have := h1 t ht
          omega
      · have h' : w.inThrottle = true := by simpa using h
        have hw : throttle func limit d w = w := throttle_of_throttled func limit d w h'
        simp only [forwardedAt, stepWith, h, if_false, List.nil_append, hw]
        exact ih w lo hinv
    | elapse ms =>
      exact ih _ lo (throttle_inv_of_timerTurn (throttle func limit) lo w (Input.elapse ms)
        rfl hinv)
    | fire k =>
      exact ih _ lo (throttle_inv_of_timerTurn (throttle func limit) lo w (Input.fire k)
        rfl hinv)

/-- Turns that are not wheel events leave `inThrottle` unset when it is. -/
theorem runWith_timerTurns_open (listener : ℚ → World → World) (pre : List Input) :
    ∀ w : World, w.inThrottle = false → (∀ i ∈ pre, i.isTimerTurn = true) →
      (runWith listener w pre).inThrottle = false := by
  induction pre with
  | nil => intro w h _; exact h
  | cons i rest ih =>
    intro w h hall
    refine ih (stepWith listener w i) ?_ (fun j hj => hall j (List.mem_cons_of_mem _ hj))
    have hi := hall i (List.mem_cons_self _ _)
    cases i with
    | wheel d => simp [Input.isTimerTurn] at hi
    | elapse ms => exact h
    | fire k =>
      rcases stepWith_fire_cases listener w k with he | ⟨t, -, -, he⟩
      · rw [he]; exact h
      · rw [he, runCallback_inThrottle]
        split
        · rfl
        · exact h

/-- The wheel handler touches neither `inThrottle`, nor the clock, nor the
re-enable timers. -/
theorem handleWheel_throttleFrame : ThrottleFrame handleWheel := by
  intro d w
  rcases handleWheel_cases d w with he | ⟨hg, hd⟩
  · rw [he]; exact ⟨rfl, rfl, rfl⟩
  · obtain ⟨-, -, ht, -, -, hn, hi⟩ := handleWheel_accepted d w hg hd
    refine ⟨hi, hn, ?_⟩
    rw [ht, List.filter_append]
    by_cases hfin : specNext w.currentState d = some State.FINAL <;>
      simp [timersOfEvent, hfin, List.filter_cons]

theorem pageLoad_throttleInv (doc : Document) (t0 : Nat) :
    ThrottleInv 0 (pageLoad doc t0) := by
  refine ⟨?_, ?_, ?_⟩
  · simp [pendingCount, pageLoad]
  · intro _; simp [pendingCount, pageLoad]
  · intro t _ _; exact Nat.zero_le _

/-- C11: `throttle(func, limit)` rate-limits dispatch. For every function
`func` (which cannot touch the closure's `inThrottle`, the clock or the
re-enable timers), every `limit`, and every sequence of calls, waits and timer
firings (a timer firing no earlier than its delay after it was scheduled) that
starts where the throttled function is created, any two calls forwarded to
`func` are at least `limit` ms apart. The first call is forwarded at once; a
call made while throttled returns the world untouched, and when the re-enable
timer later fires it only clears `inThrottle`, so the dropped call is never
forwarded. With the page's listener, `throttle(handleWheel, 100)`, the wheel
handler is invoked at most once per 100 ms along every run from the load. -/
theorem throttle_rate_limit :
    (∀ (func : ℚ → World → World) (limit : Nat), ThrottleFrame func →
      ∀ (w : World) (inputs : List Input), w.inThrottle = false →
        pendingCount Callback.resetThrottle w = 0 →
        (forwardedAt func limit w inputs).Pairwise (fun a b => a + limit ≤ b)) ∧
    (∀ (func : ℚ → World → World) (limit : Nat) (w : World) (pre : List Input) (args : ℚ),
      w.inThrottle = false → (∀ i ∈ pre, i.isTimerTurn = true) →
        throttle func limit args (runWith (throttle func limit) w pre) =
          setTimeout Callback.resetThrottle limit
            { func args (runWith (throttle func limit) w pre) with inThrottle := true }) ∧
    (∀ (func : ℚ → World → World) (limit : Nat) (args : ℚ) (w : World),
      w.inThrottle = true →
        throttle func limit args w = w ∧
          runCallback Callback.resetThrottle (throttle func limit args w) =
            { w with inThrottle := false }) ∧
    (∀ (doc : Document) (t0 : Nat) (inputs : List Input),
      run (pageLoad doc t0) inputs =
          runWith (throttle handleWheel 100) (pageLoad doc t0) inputs ∧
        (forwardedAt handleWheel 100 (pageLoad doc t0) inputs).Pairwise
          (fun a b => a + 100 ≤ b)) := by
  refine ⟨?_, ?_, ?_, ?_⟩
  · intro func limit hf w inputs h0 hc
    refine (forwardedAt_separated func limit hf inputs w 0 ⟨?_, ?_, ?_⟩).2
    · rw [hc]; exact Nat.zero_le _
    · intro _; exact ⟨hc, Nat.zero_le _⟩
    · intro t _ _; exact Nat.zero_le _
  · intro func limit w pre args h0 hall
    exact throttle_of_open func limit args _
      (runWith_timerTurns_open (throttle func limit) pre w h0 hall)
  · intro func limit args w h
    rw [throttle_of_throttled func limit args w h]
    exact ⟨rfl, rfl⟩
  · intro doc t0 inputs
    exact ⟨run_eq_runWith inputs _,
      (forwardedAt_separated handleWheel 100 handleWheel_throttleFrame inputs
        (pageLoad doc t0) 0 (pageLoad_throttleInv doc t0)).2⟩

theorem throttle_rate_limit_witness :
    (ThrottleFrame handleWheel ∧ (pageLoad blankDocument 0).inThrottle = false ∧
      pendingCount Callback.resetThrottle (pageLoad blankDocument 0) = 0) ∧
    (forwardedAt handleWheel 100 (pageLoad blankDocument 0)
      [Input.wheel 100, Input.elapse 60, Input.wheel 100, Input.elapse 60, Input.fire 1,
        Input.wheel 100]).Pairwise (fun a b => a + 100 ≤ b) :=
  ⟨⟨handleWheel_throttleFrame, by decide, by decide⟩,
    throttle_rate_limit.1 handleWheel 100 handleWheel_throttleFrame (pageLoad blankDocument 0)
      [Input.wheel 100, Input.elapse 60, Input.wheel 100, Input.elapse 60, Input.fire 1,
        Input.wheel 100] (by decide) (by decide)⟩

/-! ## The states that are reached -/

theorem specNext_mem_sequence (s t : State) (d : ℚ) (h : specNext s d = some t) :
    t ∈ sequenceStates := by
  unfold specNext at h
  split at h
  · cases s <;> simp [specTable] at h <;> subst h <;> decide
  · split at h
    · cases s <;> simp [specTable] at h <;> subst h <;> decide
    · exact absurd h (by simp)

theorem handleWheel_mem_sequence (d : ℚ) (w : World) (h : w.currentState ∈ sequenceStates) :
    (handleWheel d w).currentState ∈ sequenceStates := by
  rcases handleWheel_cases d w with he | ⟨hg, hd⟩
  · rw [he]; exact h
  · obtain ⟨hs, -⟩ := handleWheel_accepted d w hg hd
    rw [hs]
    cases hn : specNext w.currentState d with
    | none => exact h
    | some t => exact specNext_mem_sequence _ _ _ hn

theorem step_mem_sequence (w : World) (i : Input) (h : w.currentState ∈ sequenceStates) :
    (step w i).currentState ∈ sequenceStates := by
  cases i with
  | wheel d =>
    show (wheelListener d w).currentState ∈ sequenceStates
    rw [wheelListener_eq]
    split
    · exact h
    · exact handleWheel_mem_sequence d w h
  | elapse ms => exact h
  | fire k =>
    rcases step_fire_cases w k with he | ⟨t, -, -, he⟩
    · rw [he]; exact h
    · rw [he, (runCallback_frame t.callback _).1]; exact h

theorem step_sequenceInv (w : World) (i : Input) (h : SequenceInv w) :
    SequenceInv (step w i) := by
  obtain ⟨hs, hd⟩ := h
  have hs' := step_mem_sequence w i hs
  refine ⟨hs', ?_⟩
  intro n hn
  rw [step_dispatched] at hn
  rcases List.mem_append.mp hn with hn | hn
  · exact hd n hn
  · split at hn
    · simp only [List.mem_singleton] at hn
      subst hn
      refine ⟨hs', ?_⟩
      intro p hp
      simp only [Option.some.injEq] at hp
      subst hp
      exact hs
    · simp at hn

theorem run_sequenceInv (inputs : List Input) :
    ∀ w : World, SequenceInv w → SequenceInv (run w inputs) := by
  induction inputs with
  | nil => intro w h; exact h
  | cons i rest ih => intro w h; exact ih (step w i) (step_sequenceInv w i h)

theorem pageLoad_sequenceInv (doc : Document) (t0 : Nat) : SequenceInv (pageLoad doc t0) := by
  refine ⟨by simp [pageLoad, sequenceStates], ?_⟩
  intro n hn
  simp [pageLoad] at hn
  subst hn
  simp [sequenceStates]

/-- C12: the reachable-state invariant. `currentState` is PREVIEW at load, and
after every finite sequence of turns of the event loop (wheel events of any
delta at any time, timers firing) it is one of PREVIEW, TEAM_CARD, PROJECTS,
TEAM, FINAL. The declared states HERO and PROJECTS_PREVIEW are never the
current state, and no dispatched notification names either of them as its
current or its previous state. -/
theorem reachable_state_invariant (doc : Document) (t0 : Nat) (inputs : List Input) :
    (pageLoad doc t0).currentState = State.PREVIEW ∧
    (run (pageLoad doc t0) inputs).currentState ∈
      [State.PREVIEW, State.TEAM_CARD, State.PROJECTS, State.TEAM, State.FINAL] ∧
    (run (pageLoad doc t0) inputs).currentState ≠ State.HERO ∧
    (run (pageLoad doc t0) inputs).currentState ≠ State.PROJECTS_PREVIEW ∧
    ∀ n ∈ (run (pageLoad doc t0) inputs).dispatched,
      n.current ≠ State.HERO ∧ n.current ≠ State.PROJECTS_PREVIEW ∧
        n.previous ≠ some State.HERO ∧ n.previous ≠ some State.PROJECTS_PREVIEW := by
  obtain ⟨hs, hd⟩ := run_sequenceInv inputs _ (pageLoad_sequenceInv doc t0)
  have hne : ∀ s : State, s ∈ sequenceStates →
      s ≠ State.HERO ∧ s ≠ State.PROJECTS_PREVIEW := by
    intro s h
    cases s <;> simp [sequenceStates] at h ⊢
  refine ⟨by simp [pageLoad], hs, (hne _ hs).1, (hne _ hs).2, ?_⟩
  intro n hn
  obtain ⟨hc, hp⟩ := hd n hn
  refine ⟨(hne _ hc).1, (hne _ hc).2, ?_, ?_⟩
  · intro h; exact (hne _ (hp _ h)).1 rfl
  · intro h; exact (hne _ (hp _ h)).2 rfl

/-! ## The text reveal -/

theorem splitOnSpace_ne_nil (s : List CodeUnit) : splitOnSpace s ≠ [] := by
  cases s with
  | nil => simp [splitOnSpace]
  | cons c cs =>
    unfold splitOnSpace
    split
    · simp
    · split <;> simp

/-- Joining the words of `text.split(' ')` with single spaces gives the text
back. -/
theorem flatten_intersperse_splitOnSpace (s : List CodeUnit) :
    (List.intersperse [spaceUnit] (splitOnSpace s)).flatten = s := by
  induction s with
  | nil => rfl
  | cons c cs ih =>
    unfold splitOnSpace
    by_cases hc : c = spaceUnit
    · rw [if_pos hc]
      cases hsp : splitOnSpace cs with
      | nil => exact absurd hsp (splitOnSpace_ne_nil cs)
      | cons w ws =>
        rw [hsp] at ih
        simp only [List.intersperse, List.flatten_cons, List.nil_append, List.singleton_append]
        rw [ih, hc]
    · rw [if_neg hc]
      cases hsp : splitOnSpace cs with
      | nil => exact absurd hsp (splitOnSpace_ne_nil cs)
      | cons w ws =>
        rw [hsp] at ih
        cases ws with
        | nil =>
          simp only [List.intersperse, List.flatten_cons, List.flatten_nil,
            List.append_nil] at ih ⊢
          rw [ih]
        | cons v vs =>
          simp only [List.intersperse, List.flatten_cons, List.cons_append] at ih ⊢
          rw [ih]

theorem letterSpans_text (l : List CodeUnit) (k : Nat) :
    (letterSpans l k).map LetterSpan.text = l := by
  induction l generalizing k with
  | nil => rfl
  | cons c cs ih => simp [letterSpans, ih]

theorem letterSpans_index (l : List CodeUnit) (k : Nat) :
    (letterSpans l k).map LetterSpan.letterIndex = List.range' k l.length := by
  induction l generalizing k with
  | nil => rfl
  | cons c cs ih => simp [letterSpans, ih, List.range'_succ]

theorem letterSpans_append (a b : List CodeUnit) (k : Nat) :
    letterSpans (a ++ b) k = letterSpans a k ++ letterSpans b (k + a.length) := by
  induction a generalizing k with
  | nil => rfl
  | cons c cs ih =>
    show ⟨c, k⟩ :: letterSpans (cs ++ b) (k + 1) =
      ⟨c, k⟩ :: (letterSpans cs (k + 1) ++ letterSpans b (k + (cs.length + 1)))
    rw [ih (k + 1), show k + 1 + cs.length = k + (cs.length + 1) by omega]

/-- The texts of the generated children are the words with a single space
between consecutive words. -/
theorem childTexts_animateWords :
    ∀ (ws : List (List CodeUnit)) (k : Nat),
      (animateWords ws k).map HeroChild.textContent = List.intersperse [spaceUnit] ws
  | [], _ => rfl
  | [w], k => by simp [animateWords, HeroChild.textContent, letterSpans_text]
  | w :: v :: rest, k => by
    have ih := childTexts_animateWords (v :: rest) (k + w.length)
    simp only [animateWords, List.map_cons, HeroChild.textContent, letterSpans_text, ih,
      List.intersperse]

theorem lettersOf_animateWords :
    ∀ (ws : List (List CodeUnit)) (k : Nat),
      lettersOf (animateWords ws k) = letterSpans ws.flatten k
  | [], _ => rfl
  | [w], k => by simp [animateWords, lettersOf]
  | w :: v :: rest, k => by
    have ih := lettersOf_animateWords (v :: rest) (k + w.length)
    simp only [animateWords, lettersOf, ih, List.flatten_cons, letterSpans_append]

theorem wordTexts_animateWords :
    ∀ (ws : List (List CodeUnit)) (k : Nat), wordTexts (animateWords ws k) = ws
  | [], _ => rfl
  | [w], k => by simp [animateWords, wordTexts, letterSpans_text]
  | w :: v :: rest, k => by
    have ih := wordTexts_animateWords (v :: rest) (k + w.length)
    simp only [animateWords, wordTexts, ih, letterSpans_text]

theorem spaceSpanCount_animateWords :
    ∀ (ws : List (List CodeUnit)) (k : Nat),
      spaceSpanCount (animateWords ws k) = ws.length - 1
  | [], _ => rfl
  | [w], k => by simp [animateWords, spaceSpanCount]
  | w :: v :: rest, k => by
    have ih := spaceSpanCount_animateWords (v :: rest) (k + w.length)
    simp only [animateWords, spaceSpanCount, ih, List.length_cons]
    omega

/-- The letters of the words of `text.split(' ')` are the code units of the
text that are not spaces. -/
theorem flatten_splitOnSpace (s : List CodeUnit) :
    (splitOnSpace s).flatten = s.filter (fun c => decide (c ≠ spaceUnit)) := by
  induction s with
  | nil => rfl
  | cons c cs ih =>
    unfold splitOnSpace
    by_cases hc : c = spaceUnit
    · rw [if_pos hc]
      simp [hc, ih]
    · rw [if_neg hc]
      cases hsp : splitOnSpace cs with
      | nil => exact absurd hsp (splitOnSpace_ne_nil cs)
      | cons w ws =>
        rw [hsp] at ih
        simp only [List.flatten_cons] at ih
        simp only [List.flatten_cons, List.cons_append]
        rw [List.filter_cons, if_pos (by simpa using hc), ih]

theorem textContent_animated (s : List CodeUnit) :
    textContent (animateWords (splitOnSpace s) 0) = s := by
  unfold textContent
  rw [childTexts_animateWords, flatten_intersperse_splitOnSpace]

/-- What `animateTextLetters` writes: nothing when the paragraph is missing,
and otherwise the children generated from the text of the paragraph, every
other field of the world being kept. -/
theorem animateTextLetters_eq (w : World) :
    (w.heroText = none → animateTextLetters w = w) ∧
    ∀ children, w.heroText = some children →
      animateTextLetters w =
        { w with heroText := some (animateWords (splitOnSpace (textContent children)) 0) } := by
  constructor
  · intro h; simp [animateTextLetters, h]
  · intro children h; simp [animateTextLetters, h]

/-- The only code unit 32 among the code units of a character is the one of the
space character. -/
theorem filter_utf16OfChar (c : Char) :
    (utf16OfChar c).filter (fun u => decide (u ≠ spaceUnit)) =
      if c = ' ' then [] else utf16OfChar c := by
  unfold utf16OfChar spaceUnit
  by_cases hsp : c = ' '
  · subst hsp; decide
  · rw [if_neg hsp]
    have hne : c.toNat ≠ 32 := by
      intro h
      apply hsp
      rw [← Char.ofNat_toNat c, h]
    split
    · simp [hne]
    · have h1 : 55296 + (c.toNat - 65536) / 1024 ≠ 32 := by omega
      have h2 : 56320 + (c.toNat - 65536) % 1024 ≠ 32 := by omega
      simp [h1, h2]

/-- The code units of a text that are not spaces are the code units of the text
without its spaces. -/
theorem filter_utf16 (s : List Char) :
    (utf16 s).filter (fun u => decide (u ≠ spaceUnit)) =
      utf16 (s.filter (fun c => decide (c ≠ ' '))) := by
  induction s with
  | nil => rfl
  | cons c cs ih =>
    unfold utf16 at ih ⊢
    simp only [List.map_cons, List.flatten_cons, List.filter_append, ih, filter_utf16OfChar]
    by_cases hsp : c = ' '
    · simp [hsp]
    · simp [hsp]

/-- A text of the Basic Multilingual Plane has one code unit per character. -/
theorem length_utf16_of_bmp (s : List Char) (h : ∀ c ∈ s, c.toNat < 65536) :
    (utf16 s).length = s.length := by
  induction s with
  | nil => rfl
  | cons c cs ih =>
    have hc := h c (List.mem_cons_self _ _)
    have ih' := ih (fun a ha => h a (List.mem_cons_of_mem _ ha))
    unfold utf16 at ih' ⊢
    simp only [List.map_cons, List.flatten_cons, List.length_append, ih', utf16OfChar, hc,
      if_true, List.length_cons, List.length_nil]
    omega

/-- C15: `animateTextLetters` preserves the text. A JavaScript string is a
sequence of UTF-16 code units, and these are the characters the function sees
(`word.length`, `word[i]`). When the paragraph exists, with any children, then
after the call: its text is the text it had; its word containers hold the words
of `text.split(' ')`, with one single-space span between consecutive words;
its letter spans, in document order, hold the code units of the text that are
not spaces, one span each, so their number is the number of such code units,
and their `--letter-index` values are 0, 1, ..., k-1. Nothing else in the world
changes, and a second call gives the same paragraph as the first. For a text
given by its Unicode characters, the letter spans spell the text without its
spaces, and when every character is in the Basic Multilingual Plane their
number is the number of characters that are not spaces. When the paragraph is
missing the call does nothing. The timer callback scheduled on entry to FINAL
is this function. -/
theorem animateTextLetters_preserves_text (w : World) (children : List HeroChild)
    (h : w.heroText = some children) :
    (animateTextLetters w).heroText.map textContent = some (textContent children) ∧
    (animateTextLetters w).heroText.map wordTexts =
      some (splitOnSpace (textContent children)) ∧
    (animateTextLetters w).heroText.map (fun g => g.map HeroChild.textContent) =
      some (List.intersperse [spaceUnit] (splitOnSpace (textContent children))) ∧
    (animateTextLetters w).heroText.map spaceSpanCount =
      some ((splitOnSpace (textContent children)).length - 1) ∧
    (animateTextLetters w).heroText.map (fun g => (lettersOf g).map LetterSpan.text) =
      some ((textContent children).filter (fun c => decide (c ≠ spaceUnit))) ∧
    (animateTextLetters w).heroText.map (fun g => (lettersOf g).length) =
      some ((textContent children).countP (fun c => decide (c ≠ spaceUnit))) ∧
    (animateTextLetters w).heroText.map (fun g => (lettersOf g).map LetterSpan.letterIndex) =
      some (List.range ((textContent children).countP (fun c => decide (c ≠ spaceUnit)))) ∧
    animateTextLetters w = { w with heroText := (animateTextLetters w).heroText } ∧
    animateTextLetters (animateTextLetters w) = animateTextLetters w ∧
    (∀ s : List Char, children = [HeroChild.text (utf16 s)] →
      (animateTextLetters w).heroText.map (fun g => (lettersOf g).map LetterSpan.text) =
        some (utf16 (s.filter (fun c => decide (c ≠ ' ')))) ∧
      ((∀ c ∈ s, c.toNat < 65536) →
        (animateTextLetters w).heroText.map (fun g => (lettersOf g).length) =
          some (s.countP (fun c => decide (c ≠ ' '))))) ∧
    (∀ v : World, v.heroText = none → animateTextLetters v = v) ∧
    (∀ v : World, runCallback Callback.animate v = animateTextLetters v) := by
  have he := (animateTextLetters_eq w).2 children h
  have hlen : (splitOnSpace (textContent children)).flatten.length =
      (textContent children).countP (fun c => decide (c ≠ spaceUnit)) := by
    rw [flatten_splitOnSpace, List.countP_eq_length_filter]
  have hletters : (lettersOf (animateWords (splitOnSpace (textContent children)) 0)).map
      LetterSpan.text = (textContent children).filter (fun c => decide (c ≠ spaceUnit)) := by
    rw [lettersOf_animateWords, letterSpans_text, flatten_splitOnSpace]
  have hcount : (lettersOf (animateWords (splitOnSpace (textContent children)) 0)).length =
      (textContent children).countP (fun c => decide (c ≠ spaceUnit)) := by
    rw [← hlen, lettersOf_animateWords, ← List.length_map _ LetterSpan.text, letterSpans_text]
  have hout : (animateTextLetters w).heroText =
      some (animateWords (splitOnSpace (textContent children)) 0) := by
    rw [he]
  refine ⟨?_, ?_, ?_, ?_, ?_, ?_, ?_, ?_, ?_, ?_, ?_, fun v => rfl⟩
  · rw [hout, Option.map_some', textContent_animated]
  · rw [hout, Option.map_some', wordTexts_animateWords]
  · rw [hout, Option.map_some', childTexts_animateWords]
  · rw [hout, Option.map_some', spaceSpanCount_animateWords]
  · rw [hout, Option.map_some', hletters]
  · rw [hout, Option.map_some', hcount]
  · rw [hout, Option.map_some', lettersOf_animateWords, letterSpans_index, hlen,
      List.range_eq_range']
  · rw [hout, he]
  · have h2 := (animateTextLetters_eq (animateTextLetters w)).2 _ hout
    rw [h2, textContent_animated, he]
  · intro s hs
    have htext : textContent children = utf16 s := by
      rw [hs]; simp [textContent, HeroChild.textContent]
    constructor
    · rw [hout, Option.map_some', hletters, htext, filter_utf16]
    · intro hbmp
      rw [hout, Option.map_some', hcount, htext, List.countP_eq_length_filter, filter_utf16,
        length_utf16_of_bmp _ (fun c hc => hbmp c (List.mem_filter.mp hc).1),
        List.countP_eq_length_filter]
  · intro v hv
    exact (animateTextLetters_eq v).1 hv

theorem animateTextLetters_preserves_text_witness :
    ({ pageLoad blankDocument 0 with
        heroText := some [HeroChild.text (utf16 ['a', Char.ofNat 128512, ' ', 'b'])] }
      : World).heroText =
      some [HeroChild.text (utf16 ['a', Char.ofNat 128512, ' ', 'b'])] ∧
    (animateTextLetters { pageLoad blankDocument 0 with
        heroText := some [HeroChild.text (utf16 ['a', Char.ofNat 128512, ' ', 'b'])] }
      ).heroText.map (fun g => (lettersOf g).map LetterSpan.letterIndex) =
      some [0, 1, 2, 3] :=
  ⟨rfl,
    (animateTextLetters_preserves_text
      { pageLoad blankDocument 0 with
        heroText := some [HeroChild.text (utf16 ['a', Char.ofNat 128512, ' ', 'b'])] }
      [HeroChild.text (utf16 ['a', Char.ofNat 128512, ' ', 'b'])] rfl).2.2.2.2.2.2.1⟩

/-! ## The state marker of `body` -/

/-- C14 fails on the code. Removing the matches of `state-\w+` from the class
string `'state-' + p` leaves nothing for `hero`, `preview`, `projects`, `team`
and `final`, but it leaves `-card` for `team-card` and `-preview` for
`projects-preview`, since `\w` does not match the hyphen. On the page: after
one accepted down event from the load the class of `body` is
`card-shown state-team-card`, and after `onStateChange('projects',
'team-card')`, as after the second accepted down event, its tokens are
`card-shown`, `-card` and `state-projects`: a remnant of the previous marker
stays. -/
theorem state_marker_remnant :
    ([State.HERO, State.PREVIEW, State.TEAM_CARD, State.PROJECTS_PREVIEW, State.PROJECTS,
        State.TEAM, State.FINAL].map
      (fun p => replaceStateMarkers ("state-".toList ++ p.value.toList))) =
      ["".toList, "".toList, "-card".toList, "-preview".toList, "".toList, "".toList,
        "".toList] ∧
    (handleWheel 100 (pageLoad blankDocument 0)).bodyClass =
      "card-shown state-team-card".toList ∧
    parseTokens (originalOnStateChange State.PROJECTS (some State.TEAM_CARD)
        (handleWheel 100 (pageLoad blankDocument 0))).bodyClass =
      ["card-shown".toList, "-card".toList, "state-projects".toList] ∧
    (handleWheel 100 (runCallback Callback.resetTransition
        (handleWheel 100 (pageLoad blankDocument 0)))).bodyClass =
      "card-shown -card state-projects".toList := by
  decide

/-! ## Class strings: state markers and tokens -/

/-- A whitespace character is not a word character and does not occur in
`state-`. -/
theorem whitespace_stops (x : Char) (h : isAsciiWhitespace x = true) :
    isWordChar x = false ∧ x ∉ "state-".toList := by
  simp only [isAsciiWhitespace, Bool.or_eq_true, decide_eq_true_eq] at h
  rcases h with (((h | h) | h) | h) | h <;> subst h <;> decide

theorem wordRun_le (u : List Char) : wordRun u ≤ u.length := by
  induction u with
  | nil => simp [wordRun]
  | cons c cs ih =>
    unfold wordRun
    split
    · simp only [List.length_cons]; omega
    · exact Nat.zero_le _

theorem wordRun_append_stop (u : List Char) (x : Char) (r : List Char)
    (hx : isWordChar x = false) : wordRun (u ++ x :: r) = wordRun u := by
  induction u with
  | nil => simp [wordRun, hx]
  | cons c cs ih =>
    show (if isWordChar c = true then wordRun (cs ++ x :: r) + 1 else 0) =
      if isWordChar c = true then wordRun cs + 1 else 0
    rw [ih]

theorem isPrefixOf_append_stop (x : Char) (r : List Char) :
    ∀ (q p : List Char), x ∉ q → q.isPrefixOf (p ++ x :: r) = q.isPrefixOf p
  | [], p, _ => by simp [List.isPrefixOf]
  | a :: q, [], hx => by
    have : a ≠ x := fun h => hx (h ▸ List.mem_cons_self _ _)
    simp [List.isPrefixOf, this]
  | a :: q, b :: p, hx => by
    have ih := isPrefixOf_append_stop x r q p (fun h => hx (List.mem_cons_of_mem _ h))
    show (a == b && q.isPrefixOf (p ++ x :: r)) = (a == b && q.isPrefixOf p)
    rw [ih]

theorem length_le_of_isPrefixOf :
    ∀ (q p : List Char), q.isPrefixOf p = true → q.length ≤ p.length
  | [], _, _ => Nat.zero_le _
  | _ :: _, [], h => by simp [List.isPrefixOf] at h
  | a :: q, b :: p, h => by
    simp only [List.isPrefixOf, Bool.and_eq_true] at h
    have := length_le_of_isPrefixOf q p h.2
    simp only [List.length_cons]
    omega

/-- A match of `state-\w+` never runs past the end of the string. -/
theorem matchStateMarker_le (p : List Char) : matchStateMarker p ≤ p.length := by
  unfold matchStateMarker
  split
  · rename_i hp
    have h6 := length_le_of_isPrefixOf _ _ hp
    have hw := wordRun_le (p.drop 6)
    simp only [List.length_drop] at hw
    have h6' : 6 ≤ p.length := h6
    split <;> omega
  · exact Nat.zero_le _

/-- A match of `state-\w+` does not see what follows a whitespace character. -/
theorem matchStateMarker_append_stop (p : List Char) (x : Char) (r : List Char)
    (hx : isAsciiWhitespace x = true) :
    matchStateMarker (p ++ x :: r) = matchStateMarker p := by
  obtain ⟨hw, hs⟩ := whitespace_stops x hx
  unfold matchStateMarker
  rw [isPrefixOf_append_stop x r _ p hs]
  by_cases hp : "state-".toList.isPrefixOf p = true
  · have h6 : 6 ≤ p.length := length_le_of_isPrefixOf _ _ hp
    have hd : (p ++ x :: r).drop 6 = p.drop 6 ++ x :: r := by
      rw [List.drop_append_of_le_length h6]
    rw [hd, wordRun_append_stop _ _ _ hw]
  · rw [if_neg hp, if_neg hp]

theorem splitOnWhitespace_ne_nil (s : List Char) : splitOnWhitespace s ≠ [] := by
  cases s with
  | nil => simp [splitOnWhitespace]
  | cons c cs =>
    unfold splitOnWhitespace
    split
    · simp
    · split <;> simp

theorem splitOnWhitespace_cons_ws (c : Char) (cs : List Char)
    (hc : isAsciiWhitespace c = true) :
    splitOnWhitespace (c :: cs) = [] :: splitOnWhitespace cs := by
  rw [splitOnWhitespace, if_pos hc]

theorem splitOnWhitespace_cons_char (c : Char) (cs p : List Char) (ps : List (List Char))
    (hc : ¬ isAsciiWhitespace c = true) (hsp : splitOnWhitespace cs = p :: ps) :
    splitOnWhitespace (c :: cs) = (c :: p) :: ps := by
  rw [splitOnWhitespace, if_neg hc, hsp]

/-- The first piece of a split has no whitespace, and the string is that piece
alone or that piece, a whitespace character, and the rest. -/
theorem splitOnWhitespace_decomp :
    ∀ (s p : List Char) (ps : List (List Char)), splitOnWhitespace s = p :: ps →
      WsFree p ∧ ((s = p ∧ ps = []) ∨
        ∃ x r, isAsciiWhitespace x = true ∧ s = p ++ x :: r ∧ ps = splitOnWhitespace r)
  | [], p, ps, h => by
    simp only [splitOnWhitespace, List.cons.injEq] at h
    obtain ⟨rfl, rfl⟩ := h
    exact ⟨fun c hc => by simp at hc, Or.inl ⟨rfl, rfl⟩⟩
  | c :: cs, p, ps, h => by
    by_cases hc : isAsciiWhitespace c = true
    · rw [splitOnWhitespace_cons_ws c cs hc] at h
      simp only [List.cons.injEq] at h
      obtain ⟨rfl, rfl⟩ := h
      exact ⟨fun c hc => by simp at hc, Or.inr ⟨c, cs, hc, rfl, rfl⟩⟩
    · cases hsp : splitOnWhitespace cs with
      | nil => exact absurd hsp (splitOnWhitespace_ne_nil cs)
      | cons p' ps' =>
        rw [splitOnWhitespace_cons_char c cs p' ps' hc hsp] at h
        simp only [List.cons.injEq] at h
        obtain ⟨rfl, rfl⟩ := h
        obtain ⟨hfree, hrest⟩ := splitOnWhitespace_decomp cs p' ps' hsp
        refine ⟨?_, ?_⟩
        · intro a ha
          rcases List.mem_cons.mp ha with rfl | ha
          · simpa using hc
          · exact hfree a ha
        · rcases hrest with ⟨h1, h2⟩ | ⟨x, r, hx, h1, h2⟩
          · exact Or.inl ⟨by rw [h1], h2⟩
          · exact Or.inr ⟨x, r, hx, by rw [h1]; rfl, h2⟩

/-- A match at the start of a string lies within its first piece. -/
theorem matchStateMarker_head (s p : List Char) (ps : List (List Char))
    (h : splitOnWhitespace s = p :: ps) : matchStateMarker s = matchStateMarker p := by
  obtain ⟨-, hrest⟩ := splitOnWhitespace_decomp s p ps h
  rcases hrest with ⟨h1, -⟩ | ⟨x, r, hx, h1, -⟩
  · rw [h1]
  · rw [h1, matchStateMarker_append_stop p x r hx]

theorem replaceFrom_skip (k : Nat) (c : Char) (cs : List Char) :
    replaceStateMarkersFrom (k + 1) (c :: cs) = replaceStateMarkersFrom k cs := by
  rw [replaceStateMarkersFrom]

theorem replaceFrom_keep (c : Char) (cs : List Char) (h : matchStateMarker (c :: cs) = 0) :
    replaceStateMarkersFrom 0 (c :: cs) = c :: replaceStateMarkersFrom 0 cs := by
  rw [replaceStateMarkersFrom, h]

theorem replaceFrom_match (c : Char) (cs : List Char) (n : Nat)
    (h : matchStateMarker (c :: cs) = n + 1) :
    replaceStateMarkersFrom 0 (c :: cs) = replaceStateMarkersFrom n cs := by
  rw [replaceStateMarkersFrom, h]

theorem replaceFrom_nil (k : Nat) : replaceStateMarkersFrom k [] = [] := by
  cases k <;> rfl

/-- The removal of state markers works piece by piece: a match never contains
a whitespace character. Stated for the scan resumed with `k` characters of the
first piece still to be dropped. -/
theorem splitOnWhitespace_replaceFrom :
    ∀ (s : List Char) (k : Nat) (p : List Char) (ps : List (List Char)),
      splitOnWhitespace s = p :: ps → k ≤ p.length →
      splitOnWhitespace (replaceStateMarkersFrom k s) =
        replaceStateMarkersFrom k p :: ps.map replaceStateMarkers
  | [], k, p, ps, h, _ => by
    simp only [splitOnWhitespace, List.cons.injEq] at h
    obtain ⟨rfl, rfl⟩ := h
    rw [replaceFrom_nil]
    rfl
  | c :: cs, k, p, ps, h, hk => by
    cases hsp : splitOnWhitespace cs with
    | nil => exact absurd hsp (splitOnWhitespace_ne_nil cs)
    | cons p' ps' =>
      by_cases hc : isAsciiWhitespace c = true
      · have hm : matchStateMarker (c :: cs) = 0 := by
          rw [matchStateMarker_head _ _ _ h]
          rw [splitOnWhitespace_cons_ws c cs hc] at h
          simp only [List.cons.injEq] at h
          rw [← h.1]
          decide
        rw [splitOnWhitespace_cons_ws c cs hc] at h
        simp only [List.cons.injEq] at h
        obtain ⟨rfl, rfl⟩ := h
        have hk0 : k = 0 := by simpa using hk
        subst hk0
        rw [replaceFrom_keep c cs hm, splitOnWhitespace_cons_ws c _ hc,
          splitOnWhitespace_replaceFrom cs 0 p' ps' hsp (Nat.zero_le _), hsp]
        rfl
      · have hm := matchStateMarker_head _ _ _ h
        rw [splitOnWhitespace_cons_char c cs p' ps' hc hsp] at h
        simp only [List.cons.injEq] at h
        obtain ⟨rfl, rfl⟩ := h
        cases k with
        | succ k' =>
          rw [replaceFrom_skip, replaceFrom_skip]
          exact splitOnWhitespace_replaceFrom cs k' p' ps' hsp
            (by simpa using hk)
        | zero =>
          cases hmp : matchStateMarker (c :: p') with
          | zero =>
            rw [hmp] at hm
            rw [replaceFrom_keep c cs hm, replaceFrom_keep c p' hmp]
            exact splitOnWhitespace_cons_char c _ _ _ hc
              (splitOnWhitespace_replaceFrom cs 0 p' ps' hsp (Nat.zero_le _))
          | succ n =>
            rw [hmp] at hm
            rw [replaceFrom_match c cs n hm, replaceFrom_match c p' n hmp]
            have hle := matchStateMarker_le (c :: p')
            rw [hmp] at hle
            exact splitOnWhitespace_replaceFrom cs n p' ps' hsp
              (by simpa using hle)

/-- The pieces of a class string after the removal of the state markers are the
pieces of the string, each after the removal. -/
theorem splitOnWhitespace_replace (s : List Char) :
    splitOnWhitespace (replaceStateMarkers s) =
      (splitOnWhitespace s).map replaceStateMarkers := by
  cases hsp : splitOnWhitespace s with
  | nil => exact absurd hsp (splitOnWhitespace_ne_nil s)
  | cons p ps =>
    exact splitOnWhitespace_replaceFrom s 0 p ps hsp (Nat.zero_le _)

theorem splitOnWhitespace_wsFree (p : List Char) (hp : WsFree p) :
    splitOnWhitespace p = [p] := by
  induction p with
  | nil => rfl
  | cons c cs ih =>
    have hc : ¬ isAsciiWhitespace c = true := by
      rw [hp c (List.mem_cons_self _ _)]; simp
    exact splitOnWhitespace_cons_char c cs cs [] hc
      (ih (fun a ha => hp a (List.mem_cons_of_mem _ ha)))

theorem splitOnWhitespace_append_ws (p : List Char) (x : Char) (r : List Char)
    (hp : WsFree p) (hx : isAsciiWhitespace x = true) :
    splitOnWhitespace (p ++ x :: r) = p :: splitOnWhitespace r := by
  induction p with
  | nil => exact splitOnWhitespace_cons_ws x r hx
  | cons c cs ih =>
    have hc : ¬ isAsciiWhitespace c = true := by
      rw [hp c (List.mem_cons_self _ _)]; simp
    exact splitOnWhitespace_cons_char c (cs ++ x :: r) cs _ hc
      (ih (fun a ha => hp a (List.mem_cons_of_mem _ ha)))

/-- Every piece of a split is free of whitespace. -/
theorem wsFree_of_mem_split :
    ∀ (s : List Char) (t : List Char), t ∈ splitOnWhitespace s → WsFree t
  | [], t, h => by
    simp only [splitOnWhitespace, List.mem_singleton] at h
    subst h
    intro c hc
    simp at hc
  | c :: cs, t, h => by
    cases hsp : splitOnWhitespace cs with
    | nil => exact absurd hsp (splitOnWhitespace_ne_nil cs)
    | cons p' ps' =>
      by_cases hc : isAsciiWhitespace c = true
      · rw [splitOnWhitespace_cons_ws c cs hc] at h
        rcases List.mem_cons.mp h with rfl | h
        · intro a ha; simp at ha
        · exact wsFree_of_mem_split cs t h
      · rw [splitOnWhitespace_cons_char c cs p' ps' hc hsp] at h
        rcases List.mem_cons.mp h with rfl | h
        · intro a ha
          rcases List.mem_cons.mp ha with rfl | ha
          · simpa using hc
          · exact wsFree_of_mem_split cs p' (by rw [hsp]; exact List.mem_cons_self _ _) a ha
        · exact wsFree_of_mem_split cs t (by rw [hsp]; exact List.mem_cons_of_mem _ h)

/-- Splitting the serialisation of a non-empty list of whitespace-free tokens
gives the list back. -/
theorem splitOnWhitespace_serialize :
    ∀ (l : List (List Char)), l ≠ [] → (∀ t ∈ l, WsFree t) →
      splitOnWhitespace (serializeTokens l) = l
  | [], h, _ => absurd rfl h
  | [t], _, hl => by
    rw [serializeTokens]
    exact splitOnWhitespace_wsFree t (hl t (List.mem_cons_self _ _))
  | t :: u :: rest, _, hl => by
    rw [serializeTokens, splitOnWhitespace_append_ws t ' ' _ (hl t (List.mem_cons_self _ _))
      (by decide),
      splitOnWhitespace_serialize (u :: rest) (by simp)
        (fun a ha => hl a (List.mem_cons_of_mem _ ha))]
    simp

theorem mem_foldl_orderedSet (t : List Char) :
    ∀ (l acc : List (List Char)),
      t ∈ l.foldl (fun acc t => if t ∈ acc then acc else acc ++ [t]) acc ↔ t ∈ acc ∨ t ∈ l
  | [], acc => by simp
  | a :: l, acc => by
    rw [List.foldl_cons, mem_foldl_orderedSet t l]
    by_cases ha : a ∈ acc
    · rw [if_pos ha]
      constructor
      · rintro (h | h)
        · exact Or.inl h
        · exact Or.inr (List.mem_cons_of_mem _ h)
      · rintro (h | h)
        · exact Or.inl h
        · rcases List.mem_cons.mp h with rfl | h
          · exact Or.inl ha
          · exact Or.inr h
    · rw [if_neg ha]
      simp only [List.mem_append, List.mem_singleton, List.mem_cons]
      tauto

theorem mem_orderedSet (t : List Char) (l : List (List Char)) :
    t ∈ orderedSet l ↔ t ∈ l := by
  unfold orderedSet
  rw [mem_foldl_orderedSet]
  simp

/-- The tokens of a class string are its non-empty pieces. -/
theorem mem_parseTokens (t : List Char) (s : List Char) :
    t ∈ parseTokens s ↔ t ∈ splitOnWhitespace s ∧ t ≠ [] := by
  unfold parseTokens
  rw [mem_orderedSet]
  simp [List.mem_filter]

theorem wsFree_of_mem_parseTokens (s t : List Char) (h : t ∈ parseTokens s) : WsFree t :=
  wsFree_of_mem_split s t ((mem_parseTokens t s).mp h).1

/-- The tokens of the serialisation of whitespace-free tokens are its non-empty
tokens. -/
theorem mem_parseTokens_serialize (l : List (List Char)) (hl : ∀ t ∈ l, WsFree t)
    (t : List Char) : t ∈ parseTokens (serializeTokens l) ↔ t ∈ l ∧ t ≠ [] := by
  rw [mem_parseTokens]
  cases l with
  | nil =>
    simp only [serializeTokens, splitOnWhitespace, List.mem_singleton, List.not_mem_nil,
      false_and, iff_false, not_and, not_not]
    exact fun h => h
  | cons a rest => rw [splitOnWhitespace_serialize (a :: rest) (by simp) hl]

/-- The tokens after `classList.add(tok)`. -/
theorem mem_parseTokens_add (tok s t : List Char) (htok : WsFree tok) (hne : tok ≠ []) :
    t ∈ parseTokens (bodyClassListAdd tok s) ↔ t ∈ parseTokens s ∨ t = tok := by
  unfold bodyClassListAdd
  have hfree : ∀ u ∈ parseTokens s, WsFree u := fun u hu => wsFree_of_mem_parseTokens s u hu
  have hnonempty : ∀ u ∈ parseTokens s, u ≠ [] := fun u hu => ((mem_parseTokens u s).mp hu).2
  by_cases hmem : tok ∈ parseTokens s
  · rw [if_pos hmem, mem_parseTokens_serialize _ hfree]
    constructor
    · exact fun h => Or.inl h.1
    · rintro (h | h)
      · exact ⟨h, hnonempty t h⟩
      · subst h; exact ⟨hmem, hne⟩
  · rw [if_neg hmem, mem_parseTokens_serialize]
    · simp only [List.mem_append, List.mem_singleton]
      constructor
      · exact fun h => h.1
      · rintro (h | h)
        · exact ⟨Or.inl h, hnonempty t h⟩
        · subst h; exact ⟨Or.inr rfl, hne⟩
    · intro u hu
      rcases List.mem_append.mp hu with hu | hu
      · exact hfree u hu
      · simp only [List.mem_singleton] at hu
        subst hu; exact htok

/-- The tokens after `classList.remove(tok)`. -/
theorem mem_parseTokens_remove (tok s t : List Char) :
    t ∈ parseTokens (bodyClassListRemove tok s) ↔ t ∈ parseTokens s ∧ t ≠ tok := by
  unfold bodyClassListRemove
  rw [mem_parseTokens_serialize]
  · simp only [List.mem_filter, decide_eq_true_eq]
    constructor
    · exact fun h => h.1
    · exact fun h => ⟨h, ((mem_parseTokens t s).mp h.1).2⟩
  · intro u hu
    exact wsFree_of_mem_parseTokens s u (List.mem_filter.mp hu).1

/-- The tokens after the removal of the state markers. -/
theorem mem_parseTokens_replace (s t : List Char) :
    t ∈ parseTokens (replaceStateMarkers s) ↔
      t ≠ [] ∧ ∃ u ∈ parseTokens s, replaceStateMarkers u = t := by
  rw [mem_parseTokens, splitOnWhitespace_replace, List.mem_map]
  constructor
  · rintro ⟨⟨u, hu, rfl⟩, hne⟩
    refine ⟨hne, u, (mem_parseTokens u s).mpr ⟨hu, ?_⟩, rfl⟩
    intro h
    subst h
    exact hne rfl
  · rintro ⟨hne, u, hu, rfl⟩
    exact ⟨⟨u, ((mem_parseTokens u s).mp hu).1, rfl⟩, hne⟩

/-! ## The markers follow the state -/

theorem stateToken_facts (s : State) :
    WsFree (stateToken s) ∧ stateToken s ≠ [] ∧ stateToken s ≠ "card-shown".toList ∧
      replaceStateMarkers (replaceStateMarkers (stateToken s)) =
        replaceStateMarkers (stateToken s) ∧
      replaceStateMarkers (stateToken s) ≠ "card-shown".toList := by
  unfold WsFree
  cases s <;> decide

theorem cardShown_facts :
    WsFree "card-shown".toList ∧ "card-shown".toList ≠ [] ∧
      replaceStateMarkers "card-shown".toList = "card-shown".toList := by
  unfold WsFree
  decide

/-- After the removal of the state markers every token is one the removal
leaves as it is, and `card-shown` is a token exactly when it was one. -/
theorem bodyOk_replace (s : List Char) (h : BodyOk s) :
    (∀ t ∈ parseTokens (replaceStateMarkers s), replaceStateMarkers t = t) ∧
      ("card-shown".toList ∈ parseTokens (replaceStateMarkers s) ↔
        "card-shown".toList ∈ parseTokens s) := by
  constructor
  · intro t ht
    obtain ⟨-, u, hu, rfl⟩ := (mem_parseTokens_replace s t).mp ht
    rcases h u hu with hfix | ⟨x, rfl⟩
    · rw [hfix, hfix]
    · exact (stateToken_facts x).2.2.2.1
  · constructor
    · intro ht
      obtain ⟨-, u, hu, hrep⟩ := (mem_parseTokens_replace s _).mp ht
      rcases h u hu with hfix | ⟨x, rfl⟩
      · rw [hfix] at hrep
        rw [← hrep]; exact hu
      · exact absurd hrep (stateToken_facts x).2.2.2.2
    · intro ht
      exact (mem_parseTokens_replace s _).mpr
        ⟨cardShown_facts.2.1, _, ht, cardShown_facts.2.2⟩

/-- The effect of `onStateChange` on the class of `body`: the tokens stay ones
the handler can meet, and `card-shown` is a token exactly when it was one. -/
theorem bodyOk_onStateChange (x : State) (s : List Char) (h : BodyOk s) :
    BodyOk (bodyClassListAdd (stateToken x) (replaceStateMarkers s)) ∧
      ("card-shown".toList ∈
          parseTokens (bodyClassListAdd (stateToken x) (replaceStateMarkers s)) ↔
        "card-shown".toList ∈ parseTokens s) := by
  obtain ⟨hfix, hcs⟩ := bodyOk_replace s h
  obtain ⟨hw, hne, hncs, -, -⟩ := stateToken_facts x
  constructor
  · intro t ht
    rcases (mem_parseTokens_add _ _ t hw hne).mp ht with ht | ht
    · exact Or.inl (hfix t ht)
    · exact Or.inr ⟨x, ht⟩
  · rw [mem_parseTokens_add _ _ _ hw hne, hcs]
    constructor
    · rintro (h1 | h1)
      · exact h1
      · exact absurd h1.symm hncs
    · exact Or.inl

theorem bodyOk_add_cardShown (s : List Char) (h : BodyOk s) :
    BodyOk (bodyClassListAdd "card-shown".toList s) ∧
      "card-shown".toList ∈ parseTokens (bodyClassListAdd "card-shown".toList s) := by
  obtain ⟨hw, hne, hfix⟩ := cardShown_facts
  constructor
  · intro t ht
    rcases (mem_parseTokens_add _ _ t hw hne).mp ht with ht | ht
    · exact h t ht
    · subst ht; exact Or.inl hfix
  · exact (mem_parseTokens_add _ _ _ hw hne).mpr (Or.inr rfl)

theorem bodyOk_remove_cardShown (s : List Char) (h : BodyOk s) :
    BodyOk (bodyClassListRemove "card-shown".toList s) ∧
      "card-shown".toList ∉ parseTokens (bodyClassListRemove "card-shown".toList s) := by
  constructor
  · intro t ht
    exact h t ((mem_parseTokens_remove _ _ t).mp ht).1
  · intro ht
    exact ((mem_parseTokens_remove _ _ _).mp ht).2 rfl

theorem filter_classListAdd (tok : String) (l : List String) (h : tok ∈ markerClasses) :
    (classListAdd tok l).filter (fun c => decide (c ∈ markerClasses)) =
      classListAdd tok (l.filter (fun c => decide (c ∈ markerClasses))) := by
  unfold classListAdd
  have hiff : tok ∈ l.filter (fun c => decide (c ∈ markerClasses)) ↔ tok ∈ l := by
    simp [List.mem_filter, h]
  by_cases hm : tok ∈ l
  · rw [if_pos hm, if_pos (hiff.mpr hm)]
  · rw [if_neg hm, if_neg (fun hc => hm (hiff.mp hc)), List.filter_append]
    simp [List.filter_cons, h]

theorem filter_classListRemove (tok : String) (l : List String) :
    (classListRemove tok l).filter (fun c => decide (c ∈ markerClasses)) =
      classListRemove tok (l.filter (fun c => decide (c ∈ markerClasses))) := by
  unfold classListRemove
  rw [List.filter_filter, List.filter_filter]
  congr 1
  funext c
  exact Bool.and_comm _ _

/-- What `onStateChange` does to the markers: only the class of `body` changes. -/
theorem onStateChange_dom (x : State) (p : Option State) (w : World) :
    (onStateChange x p w).frostedBox = w.frostedBox ∧
    (onStateChange x p w).projectsBox = w.projectsBox ∧
    (onStateChange x p w).projectsDisplay = w.projectsDisplay ∧
    (onStateChange x p w).teamBox = w.teamBox ∧
    (onStateChange x p w).teamDisplay = w.teamDisplay ∧
    (onStateChange x p w).isBoxVisible = w.isBoxVisible ∧
    (onStateChange x p w).bodyClass =
      bodyClassListAdd (stateToken x) (replaceStateMarkers w.bodyClass) := by
  unfold onStateChange
  split <;> exact ⟨rfl, rfl, rfl, rfl, rfl, rfl, rfl⟩

/-- The marker invariant after a transition, from the markers set by its
branch before `onStateChange` is called. -/
theorem markerInv_after_transition (x : State) (p : Option State) (cb : Callback) (n : Nat)
    (v : World) (hx : x ∈ sequenceStates) (hv : v.currentState = x)
    (hm : markersOf v = markersAt x) (hb : BodyOk v.bodyClass) :
    MarkerInv (setTimeout cb n (onStateChange x p v)) := by
  obtain ⟨e1, e2, e3, e4, e5, e6, e7⟩ := onStateChange_dom x p v
  obtain ⟨hb', hcs⟩ := bodyOk_onStateChange x v.bodyClass hb
  refine ⟨?_, ?_, ?_⟩
  · show markersOf (onStateChange x p v) = markersAt (onStateChange x p v).currentState
    rw [onStateChange_currentState, hv, ← hm]
    unfold markersOf
    rw [e1, e2, e3, e4, e5, e6, e7]
    simp only [hcs]
  · show (onStateChange x p v).currentState ∈ sequenceStates
    rw [onStateChange_currentState, hv]; exact hx
  · show BodyOk (onStateChange x p v).bodyClass
    rw [e7]; exact hb'

/-- The form of `filter_classListAdd` used for rewriting. -/
theorem filter_add (tok : String) (h : tok ∈ markerClasses) (l : List String) :
    (classListAdd tok l).filter (fun c => decide (c ∈ markerClasses)) =
      classListAdd tok (l.filter (fun c => decide (c ∈ markerClasses))) :=
  filter_classListAdd tok l h

/-- Every call of `handleWheel` keeps the marker invariant. -/
theorem handleWheel_markerInv (d : ℚ) (w : World) (hinv : MarkerInv w) :
    MarkerInv (handleWheel d w) := by
  rcases handleWheel_cases d w with he | ⟨hg, hd⟩
  · rw [he]; exact hinv
  have hsign : (0 < d ∧ ¬ d < 0) ∨ (d < 0 ∧ ¬ 0 < d) := by
    rcases lt_trichotomy d 0 with h | h | h
    · exact Or.inr ⟨h, not_lt.mpr h.le⟩
    · subst h; simp at hd; exact absurd hd (by norm_num)
    · exact Or.inl ⟨h, not_lt.mpr h.le⟩
  obtain ⟨hm, hseq, hb⟩ := hinv
  have hadd := bodyOk_add_cardShown w.bodyClass hb
  have hrem := bodyOk_remove_cardShown w.bodyClass hb
  unfold handleWheel
  rw [if_neg (by simp [hg]), if_pos hd]
  rcases hsign with ⟨h1, h2⟩ | ⟨h1, h2⟩
  ·
    cases hs : w.currentState with
    | HERO =>
      rw [hs] at hseq
      exact absurd hseq (by decide)
    | PREVIEW =>
      simp only [h1, h2, hs, true_and, false_and, if_true, if_false, reduceCtorEq]
      rw [hs] at hm
      simp only [markersOf, markersAt, Markers.mk.injEq] at hm
      obtain ⟨f1, f2, f3, f4, f5, f6, f7⟩ := hm
      refine markerInv_after_transition _ _ _ _ _ (by decide) rfl ?_ hadd.1
      simp only [markersOf, markersAt, Markers.mk.injEq,
          filter_add "show" (by decide), filter_add "preview" (by decide),
          filter_add "slide-up" (by decide), filter_add "projects-preview" (by decide),
          filter_add "projects" (by decide), filter_add "team-preview" (by decide),
          filter_add "team" (by decide), filter_classListRemove, f1, f2, f3, f4, f5, f6, f7,
          hadd.2, hrem.2, decide_True, decide_False]
      decide
    | TEAM_CARD =>
      simp only [h1, h2, hs, true_and, false_and, if_true, if_false, reduceCtorEq]
      rw [hs] at hm
      simp only [markersOf, markersAt, Markers.mk.injEq] at hm
      obtain ⟨f1, f2, f3, f4, f5, f6, f7⟩ := hm
      refine markerInv_after_transition _ _ _ _ _ (by decide) rfl ?_ hb
      simp only [markersOf, markersAt, Markers.mk.injEq,
          filter_add "show" (by decide), filter_add "preview" (by decide),
          filter_add "slide-up" (by decide), filter_add "projects-preview" (by decide),
          filter_add "projects" (by decide), filter_add "team-preview" (by decide),
          filter_add "team" (by decide), filter_classListRemove, f1, f2, f3, f4, f5, f6, f7,
          hadd.2, hrem.2, decide_True, decide_False]
      decide
    | PROJECTS_PREVIEW =>
      rw [hs] at hseq
      exact absurd hseq (by decide)
    | PROJECTS =>
      simp only [h1, h2, hs, true_and, false_and, if_true, if_false, reduceCtorEq]
      rw [hs] at hm
      simp only [markersOf, markersAt, Markers.mk.injEq] at hm
      obtain ⟨f1, f2, f3, f4, f5, f6, f7⟩ := hm
      refine markerInv_after_transition _ _ _ _ _ (by decide) rfl ?_ hb
      simp only [markersOf, markersAt, Markers.mk.injEq,
          filter_add "show" (by decide), filter_add "preview" (by decide),
          filter_add "slide-up" (by decide), filter_add "projects-preview" (by decide),
          filter_add "projects" (by decide), filter_add "team-preview" (by decide),
          filter_add "team" (by decide), filter_classListRemove, f1, f2, f3, f4, f5, f6, f7,
          hadd.2, hrem.2, decide_True, decide_False]
      decide
    | TEAM =>
      simp only [h1, h2, hs, true_and, false_and, if_true, if_false, reduceCtorEq]
      rw [hs] at hm
      simp only [markersOf, markersAt, Markers.mk.injEq] at hm
      obtain ⟨f1, f2, f3, f4, f5, f6, f7⟩ := hm
      refine markerInv_after_transition _ _ _ _ _ (by decide) rfl ?_ hb
      simp only [markersOf, markersAt, Markers.mk.injEq,
          filter_add "show" (by decide), filter_add "preview" (by decide),
          filter_add "slide-up" (by decide), filter_add "projects-preview" (by decide),
          filter_add "projects" (by decide), filter_add "team-preview" (by decide),
          filter_add "team" (by decide), filter_classListRemove, f1, f2, f3, f4, f5, f6, f7,
          hadd.2, hrem.2, decide_True, decide_False]
      decide
    | FINAL =>
      simp only [h1, h2, hs, true_and, false_and, if_true, if_false, reduceCtorEq]
      rw [hs] at hm
      rw [hs] at hseq
      exact ⟨hm, hseq, hb⟩
  ·
    cases hs : w.currentState with
    | HERO =>
      rw [hs] at hseq
      exact absurd hseq (by decide)
    | PREVIEW =>
      simp only [h1, h2, hs, true_and, false_and, if_true, if_false, reduceCtorEq]
      rw [hs] at hm
      rw [hs] at hseq
      exact ⟨hm, hseq, hb⟩
    | TEAM_CARD =>
      simp only [h1, h2, hs, true_and, false_and, if_true, if_false, reduceCtorEq]
      rw [hs] at hm
      simp only [markersOf, markersAt, Markers.mk.injEq] at hm
      obtain ⟨f1, f2, f3, f4, f5, f6, f7⟩ := hm
      refine markerInv_after_transition _ _ _ _ _ (by decide) rfl ?_ hrem.1
      simp only [markersOf, markersAt, Markers.mk.injEq,
          filter_add "show" (by decide), filter_add "preview" (by decide),
          filter_add "slide-up" (by decide), filter_add "projects-preview" (by decide),
          filter_add "projects" (by decide), filter_add "team-preview" (by decide),
          filter_add "team" (by decide), filter_classListRemove, f1, f2, f3, f4, f5, f6, f7,
          hadd.2, hrem.2, decide_True, decide_False]
      decide
    | PROJECTS_PREVIEW =>
      rw [hs] at hseq
      exact absurd hseq (by decide)
    | PROJECTS =>
      simp only [h1, h2, hs, true_and, false_and, if_true, if_false, reduceCtorEq]
      rw [hs] at hm
      simp only [markersOf, markersAt, Markers.mk.injEq] at hm
      obtain ⟨f1, f2, f3, f4, f5, f6, f7⟩ := hm
      refine markerInv_after_transition _ _ _ _ _ (by decide) rfl ?_ hadd.1
      simp only [markersOf, markersAt, Markers.mk.injEq,
          filter_add "show" (by decide), filter_add "preview" (by decide),
          filter_add "slide-up" (by decide), filter_add "projects-preview" (by decide),
          filter_add "projects" (by decide), filter_add "team-preview" (by decide),
          filter_add "team" (by decide), filter_classListRemove, f1, f2, f3, f4, f5, f6, f7,
          hadd.2, hrem.2, decide_True, decide_False]
      decide
    | TEAM =>
      simp only [h1, h2, hs, true_and, false_and, if_true, if_false, reduceCtorEq]
      rw [hs] at hm
      simp only [markersOf, markersAt, Markers.mk.injEq] at hm
      obtain ⟨f1, f2, f3, f4, f5, f6, f7⟩ := hm
      refine markerInv_after_transition _ _ _ _ _ (by decide) rfl ?_ hb
      simp only [markersOf, markersAt, Markers.mk.injEq,
          filter_add "show" (by decide), filter_add "preview" (by decide),
          filter_add "slide-up" (by decide), filter_add "projects-preview" (by decide),
          filter_add "projects" (by decide), filter_add "team-preview" (by decide),
          filter_add "team" (by decide), filter_classListRemove, f1, f2, f3, f4, f5, f6, f7,
          hadd.2, hrem.2, decide_True, decide_False]
      decide
    | FINAL =>
      simp only [h1, h2, hs, true_and, false_and, if_true, if_false, reduceCtorEq]
      rw [hs] at hm
      simp only [markersOf, markersAt, Markers.mk.injEq] at hm
      obtain ⟨f1, f2, f3, f4, f5, f6, f7⟩ := hm
      refine markerInv_after_transition _ _ _ _ _ (by decide) rfl ?_ hb
      simp only [markersOf, markersAt, Markers.mk.injEq,
          filter_add "show" (by decide), filter_add "preview" (by decide),
          filter_add "slide-up" (by decide), filter_add "projects-preview" (by decide),
          filter_add "projects" (by decide), filter_add "team-preview" (by decide),
          filter_add "team" (by decide), filter_classListRemove, f1, f2, f3, f4, f5, f6, f7,
          hadd.2, hrem.2, decide_True, decide_False]
      decide

/-- The marker invariant reads only the markers and the state. -/
theorem markerInv_congr (w v : World) (h : MarkerInv w)
    (e1 : v.frostedBox = w.frostedBox) (e2 : v.projectsBox = w.projectsBox)
    (e3 : v.projectsDisplay = w.projectsDisplay) (e4 : v.teamBox = w.teamBox)
    (e5 : v.teamDisplay = w.teamDisplay) (e6 : v.bodyClass = w.bodyClass)
    (e7 : v.isBoxVisible = w.isBoxVisible) (e8 : v.currentState = w.currentState) :
    MarkerInv v := by
  unfold MarkerInv markersOf at h ⊢
  rw [e1, e2, e3, e4, e5, e6, e7, e8]
  exact h

theorem runCallback_markerInv (cb : Callback) (w : World) (h : MarkerInv w) :
    MarkerInv (runCallback cb w) := by
  cases cb with
  | resetTransition => exact markerInv_congr w _ h rfl rfl rfl rfl rfl rfl rfl rfl
  | resetThrottle => exact markerInv_congr w _ h rfl rfl rfl rfl rfl rfl rfl rfl
  | animate =>
    show MarkerInv (animateTextLetters w)
    unfold animateTextLetters
    split
    · exact h
    · exact markerInv_congr w _ h rfl rfl rfl rfl rfl rfl rfl rfl

theorem step_markerInv (w : World) (i : Input) (h : MarkerInv w) : MarkerInv (step w i) := by
  cases i with
  | wheel d =>
    show MarkerInv (wheelListener d w)
    rw [wheelListener_eq]
    split
    · exact h
    · exact markerInv_congr (handleWheel d w) _ (handleWheel_markerInv d w h)
        rfl rfl rfl rfl rfl rfl rfl rfl
  | elapse ms => exact markerInv_congr w _ h rfl rfl rfl rfl rfl rfl rfl rfl
  | fire k =>
    rcases step_fire_cases w k with he | ⟨t, -, -, he⟩
    · rw [he]; exact h
    · rw [he]
      exact runCallback_markerInv t.callback _
        (markerInv_congr w _ h rfl rfl rfl rfl rfl rfl rfl rfl)

theorem run_markerInv (inputs : List Input) :
    ∀ w : World, MarkerInv w → MarkerInv (run w inputs) := by
  induction inputs with
  | nil => intro w h; exact h
  | cons i rest ih => intro w h; exact ih (step w i) (step_markerInv w i h)

theorem map_eq_self_mem (f : List Char → List Char) :
    ∀ (l : List (List Char)), l.map f = l → ∀ t ∈ l, f t = t
  | [], _, t, ht => by simp at ht
  | a :: l, h, t, ht => by
    simp only [List.map_cons, List.cons.injEq] at h
    rcases List.mem_cons.mp ht with rfl | ht
    · exact h.1
    · exact map_eq_self_mem f l h.2 t ht

/-- The load of a page that carries none of the markers gives the markers of
PREVIEW. -/
theorem pageLoad_markerInv (doc : Document) (hc : CleanDocument doc) (t0 : Nat) :
    MarkerInv (pageLoad doc t0) := by
  obtain ⟨c1, c2, c3, c4, c5⟩ := hc
  obtain ⟨hw, hne, hncs, -, -⟩ := stateToken_facts State.PREVIEW
  have hfix : ∀ t ∈ parseTokens (replaceStateMarkers doc.bodyClass),
      replaceStateMarkers t = t := by
    intro t ht
    have hsplit := splitOnWhitespace_replace (replaceStateMarkers doc.bodyClass)
    rw [c4] at hsplit
    exact map_eq_self_mem _ _ hsplit.symm t ((mem_parseTokens t _).mp ht).1
  have hflag : "card-shown".toList ∉ parseTokens
      (bodyClassListAdd (stateToken State.PREVIEW) (replaceStateMarkers doc.bodyClass)) := by
    intro hmem
    rcases (mem_parseTokens_add _ _ _ hw hne).mp hmem with h | h
    · exact c5 h
    · exact hncs h.symm
  unfold pageLoad
  obtain ⟨e1, e2, e3, e4, e5, e6, e7⟩ := onStateChange_dom State.PREVIEW none
    { now := t0, isBoxVisible := false, currentState := State.PREVIEW,
      isTransitioning := false, inThrottle := false,
      frostedBox := classListAdd "preview" doc.frostedBox, projectsBox := doc.projectsBox,
      projectsDisplay := "none", teamBox := doc.teamBox, teamDisplay := "none",
      bodyClass := doc.bodyClass, heroText := doc.heroText, timers := [], dispatched := [],
      scheduled := [] }
  refine ⟨?_, ?_, ?_⟩
  · unfold markersOf
    rw [e1, e2, e3, e4, e5, e6, e7, onStateChange_currentState]
    simp only [markersAt, Markers.mk.injEq, filter_add "preview" (by decide), c1, c2, c3,
      hflag, decide_False, and_true, true_and]
    decide
  · rw [onStateChange_currentState]
    show State.PREVIEW ∈ sequenceStates
    decide
  · rw [e7]
    intro t ht
    rcases (mem_parseTokens_add _ _ t hw hne).mp ht with ht | ht
    · exact Or.inl (hfix t ht)
    · exact Or.inr ⟨State.PREVIEW, ht⟩

theorem specTable_up_of_down (s t : State) (h : specTable s Direction.down = some t) :
    specTable t Direction.up = some s := by
  cases s <;> simp [specTable] at h <;> subst h <;> rfl

/-- C13: the presentation markers are a function of the current state. On a
served page that carries none of the markers (no marker class on the three
boxes; a class on `body` that holds no `card-shown` and no state marker once
its state markers are removed), with the markers read as the marker classes
of `frostedBox`, `projectsBox` and `teamBox`, the `display` of `projectsBox`
and `teamBox`, the presence of `card-shown` on `body`, and `isBoxVisible`:
the load gives the markers of PREVIEW; after every sequence of turns of the
event loop the markers are `markersAt` of the current state; and from every
such world with the guard inactive, a down transition followed, after its
cooldown, by an up event brings back the state and every marker. -/
theorem markers_follow_state (doc : Document) (hc : CleanDocument doc) (t0 : Nat)
    (inputs : List Input) :
    markersOf (pageLoad doc t0) = markersAt State.PREVIEW ∧
    markersOf (run (pageLoad doc t0) inputs) =
      markersAt (run (pageLoad doc t0) inputs).currentState ∧
    ∀ (d u : ℚ) (T : State), 10 < d → u < -10 →
      (run (pageLoad doc t0) inputs).isTransitioning = false →
      specTable (run (pageLoad doc t0) inputs).currentState Direction.down = some T →
      (handleWheel d (run (pageLoad doc t0) inputs)).currentState = T ∧
      (handleWheel u (runCallback Callback.resetTransition
        (handleWheel d (run (pageLoad doc t0) inputs)))).currentState =
          (run (pageLoad doc t0) inputs).currentState ∧
      markersOf (handleWheel u (runCallback Callback.resetTransition
        (handleWheel d (run (pageLoad doc t0) inputs)))) =
          markersOf (run (pageLoad doc t0) inputs) := by
  have hload := pageLoad_markerInv doc hc t0
  have hinv := run_markerInv inputs _ hload
  refine ⟨?_, hinv.1, ?_⟩
  · have h := hload.1
    have hs : (pageLoad doc t0).currentState = State.PREVIEW := by simp [pageLoad]
    rw [hs] at h
    exact h
  · intro d u T hd hu hg hT
    have e1 := handleWheel_down d _ hg hd
    rw [hT] at e1
    have inv1 := handleWheel_markerInv d _ hinv
    have inv2 := runCallback_markerInv Callback.resetTransition _ inv1
    have e3 := handleWheel_up u (runCallback Callback.resetTransition
      (handleWheel d (run (pageLoad doc t0) inputs))) rfl hu
    rw [(resetTransition_fields _).2, e1] at e3
    simp only [Option.getD_some] at e1 e3
    rw [specTable_up_of_down _ _ hT, Option.getD_some] at e3
    have inv3 := handleWheel_markerInv u _ inv2
    refine ⟨e1, e3, ?_⟩
    rw [inv3.1, e3, hinv.1]

theorem markers_follow_state_witness :
    CleanDocument blankDocument ∧
    markersOf (run (pageLoad blankDocument 0) [Input.wheel 100]) =
      markersAt State.TEAM_CARD :=
  ⟨by unfold CleanDocument; decide,
    (markers_follow_state blankDocument (by unfold CleanDocument; decide) 0
      [Input.wheel 100]).2.1⟩

end QVibe
